import Mathlib

/-!
# Verification of the Ludo game server core

Shallow embedding of the repository's game engine
(`internal/server/game/engine.go`), data model
(`internal/shared/models/models.go`, `internal/shared/constants/constants.go`),
AI decision module (`pkg/ai/ai.go`), room registry
(`internal/server/room/manager.go`, `internal/server/room/room.go`) and
protocol validator/serializer (`internal/shared/protocol/validator.go`,
`internal/shared/protocol/serializer.go`).

Go machine integers are modelled as `Int` (no arithmetic here approaches
64-bit overflow), Go maps keyed by player id as association lists, Go
slices as `List`, and the engine's `*rand.Rand` draws as explicit `Nat`
oracle arguments (`draw`).  Pointer-linked structures (board cells holding
`*Token`) are modelled by storing the token value in the cell; the engine
itself keeps cells in sync with token mutations, so no stale-copy
divergence arises (every write to a token is accompanied in the source by
the corresponding cell write).
-/

/-- List update at an index, leaving the list unchanged when out of range.
Models in-place slice element assignment `xs[i] = f(xs[i])` in Go. -/
def updAt {α : Type} (f : α → α) : List α → Nat → List α
  | [], _ => []
  | x :: xs, 0 => f x :: xs
  | x :: xs, n + 1 => x :: updAt f xs n

/-- Total list indexing with a default, models Go's `xs[i]` under a
bounds guarantee established by the surrounding code. -/
def lGet {α : Type} (d : α) : List α → Nat → α
  | [], _ => d
  | x :: _, 0 => x
  | _ :: xs, n + 1 => lGet d xs n

/-- Indexing returning an `Option`, models Go's checked `xs[i]` access
(the engine indexes `Players[CurrentTurn]`; an out-of-range index, which
would panic in Go, is modelled as the error result of the operation). -/
def lookupIdx {α : Type} : List α → Nat → Option α
  | [], _ => none
  | x :: _, 0 => some x
  | _ :: xs, n + 1 => lookupIdx xs n

/-- The four player colors, `constants.PlayerColor`. -/
inductive Color : Type
  | red
  | blue
  | green
  | yellow
deriving DecidableEq, Repr

/-- `constants.StartingPositions`. -/
def startingPositions : Color → Int
  | .red => 0
  | .blue => 13
  | .green => 26
  | .yellow => 39

/-- `constants.HomeStretchStart`. -/
def homeStretchStart : Color → Int
  | .red => 50
  | .blue => 11
  | .green => 24
  | .yellow => 37

/-- `constants.SafePositions`. -/
def safePositions : List Int := [0, 8, 13, 21, 26, 34, 39, 47]

/-- `models.Token`: id 0-3, color, position (-1 base, 0-51 ring, 52-57
home stretch), home flag, safe flag. -/
structure Token : Type where
  id : Nat
  color : Color
  position : Int
  isHome : Bool
  isSafe : Bool
deriving DecidableEq, Repr

/-- `models.Cell`: safe-cell marking and the token occupying the cell
(`*models.Token` modelled by value, kept in sync by the engine). The
`Position` field of `models.Cell` is never read and is omitted. -/
structure Cell : Type where
  isSafe : Bool
  token : Option Token
deriving DecidableEq, Repr

def dummyCell : Cell := { isSafe := false, token := none }

/-- `models.Board`: 52 ring cells plus one private 6-cell home stretch
per color (the Go `map[PlayerColor][6]*Cell` flattened into four fields). -/
structure Board : Type where
  cells : List Cell
  hsRed : List Cell
  hsBlue : List Cell
  hsGreen : List Cell
  hsYellow : List Cell
deriving DecidableEq, Repr

/-- Read `Board.HomeStretches[color]`. -/
def Board.hs (b : Board) : Color → List Cell
  | .red => b.hsRed
  | .blue => b.hsBlue
  | .green => b.hsGreen
  | .yellow => b.hsYellow

/-- Write `Board.HomeStretches[color]`. -/
def Board.setHS (b : Board) : Color → List Cell → Board
  | .red, l => { b with hsRed := l }
  | .blue, l => { b with hsBlue := l }
  | .green, l => { b with hsGreen := l }
  | .yellow, l => { b with hsYellow := l }

/-- Set the token slot of cell `i`, `cells[i].Token = v`. -/
def setCellToken (cs : List Cell) (i : Nat) (v : Option Token) : List Cell :=
  updAt (fun c => { c with token := v }) cs i

/-- `models.NewBoard`: 52 ring cells with safe markings from
`constants.SafePositions`, empty home stretches of 6 safe cells each. -/
def newBoard : Board :=
  { cells := (List.range 52).map
      (fun i => { isSafe := safePositions.contains (Int.ofNat i), token := none }),
    hsRed := List.replicate 6 { isSafe := true, token := none },
    hsBlue := List.replicate 6 { isSafe := true, token := none },
    hsGreen := List.replicate 6 { isSafe := true, token := none },
    hsYellow := List.replicate 6 { isSafe := true, token := none } }

/-- `models.Player` restricted to the fields the engine reads: id, color,
tokens, consecutive-six counter.  (Username, ready, connected and AI
fields do not influence the verified operations.) -/
structure Player : Type where
  pid : Int
  color : Color
  tokens : List Token
  consecutiveSix : Nat
deriving DecidableEq, Repr

def dummyToken : Token :=
  { id := 0, color := .red, position := 0, isHome := false, isSafe := false }

def dummyPlayer : Player := { pid := 0, color := .red, tokens := [], consecutiveSix := 0 }

/-- `models.NewPlayer`: four tokens in base (`position = -1`), safe,
not home, ids 0-3 inheriting the player color. -/
def mkToken (i : Nat) (c : Color) : Token :=
  { id := i, color := c, position := -1, isHome := false, isSafe := true }

def newPlayer (pid : Int) (c : Color) : Player :=
  { pid := pid, color := c,
    tokens := [mkToken 0 c, mkToken 1 c, mkToken 2 c, mkToken 3 c],
    consecutiveSix := 0 }

/-- `constants.GameState`. -/
inductive RState : Type
  | waiting
  | playing
  | finished
deriving DecidableEq, Repr

/-- `models.Room` restricted to the fields read by the engine and the
room registry. -/
structure Room : Type where
  players : List Player
  maxPlayers : Int
  hostId : Int
  currentTurn : Nat
  lastDice : Int
  state : RState
  isPrivate : Bool
deriving DecidableEq, Repr

/-- Engine game state: the room model, the board, and the per-player
roll counter map `Engine.rollCount` as an association list. -/
structure Game : Type where
  room : Room
  board : Board
  rollCount : List (Int × Nat)
deriving DecidableEq, Repr

/-- Domain events fired through `EngineCallbacks`. -/
inductive GEvent : Type
  | diceRolled (pid : Int) (value : Int) (extraTurn : Bool)
  | tokenMoved (pid : Int) (tokenId : Nat) (fromPos toPos : Int)
  | tokenCaptured (capturedBy capturedFrom : Int) (tokenId : Nat) (pos : Int)
  | turnChanged (pid : Int)
  | gameOver (winner : Int)
deriving DecidableEq, Repr

/-- Read the roll-count map (Go map read, zero default). -/
def rcGet : List (Int × Nat) → Int → Nat
  | [], _ => 0
  | e :: rest, pid => if e.1 = pid then e.2 else rcGet rest pid

/-- Write the roll-count map (Go map write). -/
def rcSet : List (Int × Nat) → Int → Nat → List (Int × Nat)
  | [], pid, v => [(pid, v)]
  | e :: rest, pid, v => if e.1 = pid then (pid, v) :: rest else e :: rcSet rest pid v

/-- `Engine.calculateNewPosition` (identical code also appears as
`AIPlayer.calculateNewPosition` in `pkg/ai/ai.go`): base exit to the
color's starting cell, home-stretch entry past the color's entry offset,
otherwise advance with wraparound modulo 52. -/
def calculateNewPosition (t : Token) (diceValue : Int) (color : Color) : Int :=
  if t.position = -1 then startingPositions color
  else
    let newPos := t.position + diceValue
    let homeEntry := homeStretchStart color
    if t.position < homeEntry ∧ homeEntry ≤ newPos then 52 + (newPos - homeEntry)
    else if 52 ≤ newPos ∧ t.position < 52 then newPos % 52
    else newPos

/-- `Engine.canMoveToken`: a home token cannot move; a base token needs a
6; the destination must not exceed 57; the destination home-stretch cell
must be free; the destination ring cell must not hold a same-color token. -/
def canMoveToken (b : Board) (t : Token) (diceValue : Int) (color : Color) : Bool :=
  if t.isHome then false
  else if t.position = -1 ∧ diceValue ≠ 6 then false
  else
    let newPos := calculateNewPosition t diceValue color
    if 57 < newPos then false
    else if 52 ≤ newPos then
      match (lGet dummyCell (b.hs color) (newPos - 52).toNat).token with
      | some _ => false
      | none => true
    else
      match (lGet dummyCell b.cells newPos.toNat).token with
      | some u => decide ¬(u.color = color)
      | none => true

/-- `Engine.hasValidMove`. -/
def hasValidMove (b : Board) (p : Player) (diceValue : Int) : Bool :=
  p.tokens.any (fun t => canMoveToken b t diceValue p.color)

/-- The removal block of `Engine.moveTokenToPosition`: clear the token's
origin cell (ring or home stretch). -/
def clearOldCell (b : Board) (t : Token) (color : Color) : Board :=
  if 0 ≤ t.position ∧ t.position < 52 then
    { b with cells := setCellToken b.cells t.position.toNat none }
  else if 52 ≤ t.position then
    b.setHS color (setCellToken (b.hs color) (t.position - 52).toNat none)
  else b

/-- `Engine.moveTokenToPosition`: clear the origin cell, update the token's
position, then either mark home (home index ≥ 6), occupy the home-stretch
cell, or occupy the ring cell and recompute the safe flag from the cell. -/
def moveTokenToPosition (b : Board) (t : Token) (newPos : Int) (color : Color) :
    Token × Board :=
  let b1 := clearOldCell b t color
  if 52 ≤ newPos then
    if 6 ≤ newPos - 52 then
      ({ t with position := newPos, isHome := true }, b1)
    else
      let t1 := { t with position := newPos }
      (t1, b1.setHS color (setCellToken (b1.hs color) (newPos - 52).toNat (some t1)))
  else
    let cSafe := (lGet dummyCell b1.cells newPos.toNat).isSafe
    let t1 := { t with position := newPos, isSafe := cSafe }
    (t1, { b1 with cells := setCellToken b1.cells newPos.toNat (some t1) })

/-- `Engine.checkCapture`: only ring destinations; no capture on an empty
or safe cell or onto the capturer's own color; otherwise the victim is
sent to base (`position = -1`, `is_home = false`, `is_safe = true`) and
removed from the cell.  Returns the captured token, the updated board and
the updated player list (the Go code mutates the victim through the cell's
token pointer; here the matching token in the owning player is updated). -/
def checkCapture (b : Board) (players : List Player) (pos : Int) (capColor : Color) :
    Option Token × Board × List Player :=
  if pos < 0 ∨ 52 ≤ pos then (none, b, players)
  else
    let cell := lGet dummyCell b.cells pos.toNat
    match cell.token with
    | none => (none, b, players)
    | some victim =>
      if cell.isSafe then (none, b, players)
      else if victim.color = capColor then (none, b, players)
      else
        let players2 := players.map (fun p =>
          if p.color = victim.color then
            { p with tokens := p.tokens.map (fun t =>
                if t.id = victim.id then
                  { t with position := -1, isHome := false, isSafe := true }
                else t) }
          else p)
        (some { victim with position := -1, isHome := false, isSafe := true },
         { b with cells := setCellToken b.cells pos.toNat none }, players2)

/-- `Engine.checkWin`: every token home. -/
def checkWin (p : Player) : Bool :=
  p.tokens.all (fun t => t.isHome)

/-- `Engine.nextTurn`: advance the seat index modulo the seat count and
fire a turn-changed event for the new current player. -/
def nextTurn (r : Room) : Room × List GEvent :=
  let ct := (r.currentTurn + 1) % r.players.length
  match lookupIdx r.players ct with
  | some p => ({ r with currentTurn := ct }, [GEvent.turnChanged p.pid])
  | none => ({ r with currentTurn := ct }, [])

/-- Update the player at index `i` with `f` (mutation through the
`currentPlayer` pointer in Go). -/
def setPlayerAt (ps : List Player) (i : Nat) (f : Player → Player) : List Player :=
  updAt f ps i

/-- The rigged dice value of `Engine.RollDice`: roll number 1 and every
multiple of 5 yield 6, otherwise `rand.Intn(6) + 1` (oracle `draw`). -/
def riggedValue (n : Nat) (draw : Nat) : Int :=
  if n = 1 ∨ n % 5 = 0 then 6 else ((draw % 6 : Nat) : Int) + 1

/-- Tail of `Engine.RollDice` after the consecutive-six bookkeeping: if the
player has no valid move and no extra turn, advance the turn; fire the
dice-rolled event. -/
def finishRoll (board : Board) (rcNew : List (Int × Nat)) (room2 : Room)
    (cur : Player) (pid : Int) (dv : Int) (extraTurn : Bool) :
    Option (Int × Bool) × Game × List GEvent :=
  let canMove := hasValidMove board cur dv
  if canMove = false ∧ extraTurn = false then
    let nt := nextTurn room2
    (some (dv, extraTurn), { room := nt.1, board := board, rollCount := rcNew },
     nt.2 ++ [GEvent.diceRolled pid dv extraTurn])
  else
    (some (dv, extraTurn), { room := room2, board := board, rollCount := rcNew },
     [GEvent.diceRolled pid dv extraTurn])

/-- `Engine.RollDice`: turn check, roll-counter increment, rigged dice,
record `LastDice`, three-consecutive-sixes forfeiture, no-move auto
advance, dice-rolled event.  Returns `(value, extraTurn)` on success. -/
def RollDice (g : Game) (pid : Int) (draw : Nat) :
    Option (Int × Bool) × Game × List GEvent :=
  match lookupIdx g.room.players g.room.currentTurn with
  | none => (none, g, [])
  | some cur =>
    if cur.pid = pid then
      let n := rcGet g.rollCount pid + 1
      let rcNew := rcSet g.rollCount pid n
      let dv := riggedValue n draw
      let room1 := { g.room with lastDice := dv }
      if dv = 6 then
        if 3 ≤ cur.consecutiveSix + 1 then
          let room2 := { room1 with
            players := setPlayerAt room1.players room1.currentTurn
              (fun p => { p with consecutiveSix := 0 }) }
          let nt := nextTurn room2
          (some (dv, false), { room := nt.1, board := g.board, rollCount := rcNew },
           nt.2 ++ [GEvent.diceRolled pid dv false])
        else
          let room2 := { room1 with
            players := setPlayerAt room1.players room1.currentTurn
              (fun p => { p with consecutiveSix := cur.consecutiveSix + 1 }) }
          finishRoll g.board rcNew room2 cur pid dv true
      else
        let room2 := { room1 with
          players := setPlayerAt room1.players room1.currentTurn
            (fun p => { p with consecutiveSix := 0 }) }
        finishRoll g.board rcNew room2 cur pid dv false
    else (none, g, [])

/-- Victim-player lookup of `Engine.MoveToken`: first player whose color
matches the captured token (zero when absent). -/
def findColorPid (ps : List Player) (c : Color) : Int :=
  match ps.find? (fun p => p.color == c) with
  | some p => p.pid
  | none => 0

/-- Events fired for a capture in `Engine.MoveToken`. -/
def capEvents (players : List Player) (captured : Option Token) (pid : Int)
    (newPos : Int) : List GEvent :=
  match captured with
  | some v => [GEvent.tokenCaptured pid (findColorPid players v.color) v.id newPos]
  | none => []

/-- Body of `Engine.MoveToken` after validation: move, capture check,
token-moved (and capture) events, win check with game end, else turn
advance unless a 6 was rolled. -/
def moveTokenCore (g : Game) (cur : Player) (pid : Int) (j : Nat) (token : Token)
    (dv : Int) : Option Unit × Game × List GEvent :=
  let oldPos := token.position
  let newPos := calculateNewPosition token dv cur.color
  let mb := moveTokenToPosition g.board token newPos cur.color
  let players1 := setPlayerAt g.room.players g.room.currentTurn
    (fun p => { p with tokens := updAt (fun _ => mb.1) p.tokens j })
  let cc := checkCapture mb.2 players1 newPos cur.color
  let evMove := [GEvent.tokenMoved pid token.id oldPos newPos]
  let evCap := capEvents cc.2.2 cc.1 pid newPos
  let curAfter := lGet dummyPlayer cc.2.2 g.room.currentTurn
  if checkWin curAfter then
    (some (),
     { room := { g.room with players := cc.2.2, state := .finished },
       board := cc.2.1, rollCount := g.rollCount },
     evMove ++ evCap ++ [GEvent.gameOver pid])
  else if dv ≠ 6 then
    let nt := nextTurn { g.room with players := cc.2.2 }
    (some (), { room := nt.1, board := cc.2.1, rollCount := g.rollCount },
     evMove ++ evCap ++ nt.2)
  else
    (some (), { room := { g.room with players := cc.2.2 }, board := cc.2.1,
                rollCount := g.rollCount },
     evMove ++ evCap)

/-- `Engine.MoveToken`: turn check, token-id range check, move-legality
check, then `moveTokenCore`. -/
def MoveToken (g : Game) (pid : Int) (tokenId : Int) :
    Option Unit × Game × List GEvent :=
  match lookupIdx g.room.players g.room.currentTurn with
  | none => (none, g, [])
  | some cur =>
    if cur.pid = pid then
      if tokenId < 0 ∨ (cur.tokens.length : Int) ≤ tokenId then (none, g, [])
      else
        let token := lGet dummyToken cur.tokens tokenId.toNat
        if canMoveToken g.board token g.room.lastDice cur.color then
          moveTokenCore g cur pid tokenId.toNat token g.room.lastDice
        else (none, g, [])
    else (none, g, [])

/-- `Engine.Start`: only from Waiting with at least 2 players; random
starting seat (oracle `draw`), transition to Playing, turn-changed event. -/
def Start (g : Game) (draw : Nat) : Option Unit × Game × List GEvent :=
  if g.room.state ≠ RState.waiting then (none, g, [])
  else if g.room.players.length < 2 then (none, g, [])
  else
    let ct := draw % g.room.players.length
    let room1 := { g.room with currentTurn := ct, state := .playing }
    match lookupIdx room1.players ct with
    | some p => (some (), { g with room := room1 }, [GEvent.turnChanged p.pid])
    | none => (some (), { g with room := room1 }, [])

/-- A fresh engine state over a fresh room (`NewEngine` composed with the
room construction of `Manager.CreateRoom`/`Room.AddPlayer`): zero turn
index, zero last dice, Waiting, fresh board, empty roll-count map. -/
def initGame (ps : List Player) (mp : Int) (hid : Int) (priv : Bool) : Game :=
  { room := { players := ps, maxPlayers := mp, hostId := hid, currentTurn := 0,
              lastDice := 0, state := .waiting, isPrivate := priv },
    board := newBoard, rollCount := [] }

/-- One engine operation with its oracle arguments. -/
inductive GAction : Type
  | astart (draw : Nat)
  | aroll (pid : Int) (draw : Nat)
  | amove (pid : Int) (tokenId : Int)

/-- The state after one engine operation. -/
def nextState (g : Game) : GAction → Game
  | .astart draw => (Start g draw).2.1
  | .aroll pid draw => (RollDice g pid draw).2.1
  | .amove pid tokenId => (MoveToken g pid tokenId).2.1

/-- States reachable by any sequence of engine operations from a fresh
engine over a room whose players were created by `NewPlayer`. -/
inductive Reachable : Game → Prop
  | init (ps : List Player) (mp hid : Int) (priv : Bool)
      (h : ∀ p ∈ ps, ∃ q c, p = newPlayer q c) :
      Reachable (initGame ps mp hid priv)
  | step (g : Game) (a : GAction) (h : Reachable g) : Reachable (nextState g a)

/-! ## AI decision module (`pkg/ai/ai.go`) -/

/-- `AIPlayer.canMoveToken`: unlike the engine variant, a base token is
declared movable as soon as the dice shows 6 (no collision check on the
starting cell), and the home-stretch collision check also compares colors. -/
def aiCanMoveToken (b : Board) (t : Token) (diceValue : Int) (color : Color) : Bool :=
  if t.isHome then false
  else if t.position = -1 then decide (diceValue = 6)
  else
    let newPos := calculateNewPosition t diceValue color
    if 57 < newPos then false
    else if 52 ≤ newPos then
      match (lGet dummyCell (b.hs color) (newPos - 52).toNat).token with
      | some u => decide ¬(u.color = color)
      | none => true
    else
      match (lGet dummyCell b.cells newPos.toNat).token with
      | some u => decide ¬(u.color = color)
      | none => true

/-- `AIPlayer.getValidTokens`. -/
def getValidTokens (p : Player) (diceValue : Int) (b : Board) : List Token :=
  p.tokens.filter (fun t => aiCanMoveToken b t diceValue p.color)

/-- `AIPlayer.canCapture`: ring cell occupied by a non-safe token of
another color. -/
def canCapture (pos : Int) (color : Color) (b : Board) : Bool :=
  if pos < 0 ∨ 52 ≤ pos then false
  else
    let cell := lGet dummyCell b.cells pos.toNat
    match cell.token with
    | none => false
    | some u => if cell.isSafe then false else decide ¬(u.color = color)

/-- `AIPlayer.isSafePosition`: marked ring safe cells, and every
off-ring position (base and home stretch) counts as safe. -/
def isSafePosition (pos : Int) : Bool :=
  if pos < 0 ∨ 52 ≤ pos then true else safePositions.contains pos

/-- `AIPlayer.isTokenIsolated`: evaluated at the token's current position;
another own token (any position ≥ 0, home stretch included) within
absolute distance 6 prevents isolation. -/
def isTokenIsolated (t : Token) (allTokens : List Token) : Bool :=
  if t.position < 0 ∨ 52 ≤ t.position then false
  else
    !(allTokens.any (fun o =>
      o.id ≠ t.id ∧ 0 ≤ o.position ∧ (t.position - o.position).natAbs ≤ 6))

/-- `AIPlayer.isPositionDangerous`: never for safe positions; otherwise an
opposing token within 6 ring cells behind the position. -/
def isPositionDangerous (pos : Int) (color : Color) (b : Board) : Bool :=
  if isSafePosition pos then false
  else
    (List.range 6).any (fun k =>
      let checkPos := (pos - (Int.ofNat k + 1) + 52) % 52
      match (lGet dummyCell b.cells checkPos.toNat).token with
      | some u => decide ¬(u.color = color)
      | none => false)

/-- `AIPlayer.blocksOpponent`: some token (of any color) with position
greater than 45 within 6 ring cells ahead of the position. -/
def blocksOpponent (pos : Int) (b : Board) : Bool :=
  if pos < 0 ∨ 52 ≤ pos then false
  else
    (List.range 6).any (fun k =>
      let checkPos := (pos + (Int.ofNat k + 1)) % 52
      match (lGet dummyCell b.cells checkPos.toNat).token with
      | some u => decide (45 < u.position)
      | none => false)

/-- `AIPlayer.evaluateMove`: the Hard-difficulty score of moving `t` by
`diceValue`. -/
def evaluateMove (t : Token) (diceValue : Int) (p : Player) (b : Board) : Int :=
  let newPos := calculateNewPosition t diceValue p.color
  (if canCapture newPos p.color b then 1000 else 0) +
  (if t.position = -1 ∧ diceValue = 6 then 500 else 0) +
  (if 52 ≤ newPos then 800 else 0) +
  (if isSafePosition newPos then 300 else 0) +
  newPos * 10 +
  (if isTokenIsolated t p.tokens then -200 else 0) +
  (if isPositionDangerous newPos p.color b then -400 else 0) +
  (if blocksOpponent newPos b then 600 else 0)

/-- The fold of `selectTokenHard` over the scored candidates: keep the
incumbent unless a strictly greater score appears. -/
def pickBest (score : Token → Int) (acc : Token) : List Token → Token
  | [] => acc
  | t :: rest => pickBest score (if score acc < score t then t else acc) rest

/-- `AIPlayer.selectTokenHard`: none when no token is legal, otherwise the
first legal token of maximal `evaluateMove` score. -/
def selectTokenHard (p : Player) (diceValue : Int) (b : Board) : Option Token :=
  match getValidTokens p diceValue b with
  | [] => none
  | t0 :: rest => some (pickBest (fun t => evaluateMove t diceValue p b) t0 rest)

/-! ## Protocol validator and serializer (`internal/shared/protocol`) -/

/-- Character-level whitespace test of Go's `strings.TrimSpace` for the
ASCII range (the repository only ever feeds it ASCII usernames). -/
def isSpaceChar (c : Char) : Bool :=
  c = ' ' ∨ c = '\t' ∨ c = '\n' ∨ c = '\r'

/-- `strings.TrimSpace` on a character list. -/
def trimChars (s : List Char) : List Char :=
  (s.dropWhile isSpaceChar).reverse.dropWhile isSpaceChar |>.reverse

/-- `Validator.validateConnect` on the payload's username (`true` = no
error): the emptiness check trims the username, but the length bounds are
applied to the raw, untrimmed username. -/
def validateConnect (username : List Char) : Bool :=
  if trimChars username = [] then false
  else if username.length < 3 ∨ 20 < username.length then false
  else true

/-- A message whose payload carries a connect payload's username, the
shape `Validator.ValidateMessage` sees for the `connect` type tag
(`ExtractPayload` is modelled as the field projection). -/
structure VMessage : Type where
  vtype : List Char
  username : List Char
deriving DecidableEq, Repr

/-- `Validator.ValidateMessage` restricted to connect-payload messages:
nil and empty-type messages fail; the `connect` tag dispatches to
`validateConnect`; other tags pass. -/
def ValidateMessage (msg : Option VMessage) : Bool :=
  match msg with
  | none => false
  | some m =>
    if m.vtype = [] then false
    else if m.vtype = "connect".toList then validateConnect m.username
    else true

/-- A JSON value, the data model of `encoding/json` used by
`EncodeMessage`/`DecodeMessage`. -/
inductive Json : Type
  | null
  | jbool (b : Bool)
  | jnum (n : Int)
  | jstr (s : List Char)
  | jarr (xs : List Json)
  | jobj (fields : List (List Char × Json))

/-- `models.NetworkMessage`: type tag, opaque payload (a JSON value,
matching the `interface{}` payload), timestamp (the RFC 3339 time.Time
serialization modelled as its integer nanosecond value), and the
`omitempty` player and room identifiers. -/
structure NetMsg : Type where
  mtype : List Char
  payload : Json
  timestamp : Int
  playerId : Int
  roomId : List Char

/-- Field lookup in a JSON object (first occurrence). -/
def jGet : List (List Char × Json) → List Char → Option Json
  | [], _ => none
  | (k, v) :: rest, key => if k = key then some v else jGet rest key

def typeKey : List Char := "type".toList
def payloadKey : List Char := "payload".toList
def timestampKey : List Char := "timestamp".toList
def playerIdKey : List Char := "player_id".toList
def roomIdKey : List Char := "room_id".toList

/-- `protocol.EncodeMessage` (`json.Marshal` of a `NetworkMessage`):
serialize the envelope; `player_id` and `room_id` carry `omitempty` and
are dropped at their zero values. -/
def EncodeMessage (m : NetMsg) : Json :=
  Json.jobj
    ([(typeKey, Json.jstr m.mtype),
      (payloadKey, m.payload),
      (timestampKey, Json.jnum m.timestamp)] ++
     (if m.playerId = 0 then [] else [(playerIdKey, Json.jnum m.playerId)]) ++
     (if m.roomId = [] then [] else [(roomIdKey, Json.jstr m.roomId)]))

/-- `protocol.DecodeMessage` (`json.Unmarshal` into a `NetworkMessage`):
a non-object document or a wrongly-typed field is an error; a missing
field leaves the zero value. -/
def DecodeMessage (j : Json) : Option NetMsg :=
  match j with
  | Json.jobj fields =>
    let mt : Option (List Char) :=
      match jGet fields typeKey with
      | some (Json.jstr s) => some s
      | none => some []
      | some _ => none
    let ts : Option Int :=
      match jGet fields timestampKey with
      | some (Json.jnum n) => some n
      | none => some 0
      | some _ => none
    let pl : Option Json :=
      match jGet fields payloadKey with
      | some v => some v
      | none => some Json.null
    let pidv : Option Int :=
      match jGet fields playerIdKey with
      | some (Json.jnum n) => some n
      | none => some 0
      | some _ => none
    let rid : Option (List Char) :=
      match jGet fields roomIdKey with
      | some (Json.jstr s) => some s
      | none => some []
      | some _ => none
    match mt, pl, ts, pidv, rid with
    | some a, some b, some c, some d, some e =>
      some { mtype := a, payload := b, timestamp := c, playerId := d, roomId := e }
    | _, _, _, _, _ => none
  | _ => none

/-! ## Room wrapper and registry (`internal/server/room`) -/

/-- `room.Room`: the room model plus the connection map
(`map[int64]*PlayerConnection`, modelled as an association list from
player id to the connection's ready flag). -/
structure RoomW : Type where
  model : Room
  conns : List (Int × Bool)
deriving DecidableEq, Repr

/-- Go map `delete(r.players, playerID)`. -/
def connsDelete (cs : List (Int × Bool)) (pid : Int) : List (Int × Bool) :=
  cs.filter (fun e => e.1 != pid)

/-- The player-list removal loop of `Room.RemovePlayer`: drop the first
entry with the given id. -/
def removeFirstPlayer : List Player → Int → List Player
  | [], _ => []
  | p :: rest, pid => if p.pid = pid then rest else p :: removeFirstPlayer rest pid

/-- `Room.RemovePlayer`: delete the connection, remove the first matching
player, then, if the removed id was the host and players remain, promote
the first remaining player to host. -/
def RemovePlayer (rw : RoomW) (pid : Int) : RoomW :=
  let conns2 := connsDelete rw.conns pid
  let players2 := removeFirstPlayer rw.model.players pid
  let host2 :=
    if rw.model.hostId = pid ∧ 0 < players2.length then
      match players2 with
      | [] => rw.model.hostId
      | p :: _ => p.pid
    else rw.model.hostId
  { model := { rw.model with players := players2, hostId := host2 }, conns := conns2 }

/-- `Manager.ListRooms`: the models of the registered rooms that are not
private and in the Waiting state (no fullness condition appears in the
code). -/
def ListRooms (ms : List RoomW) : List Room :=
  (ms.filter (fun rw => !rw.model.isPrivate && decide (rw.model.state = RState.waiting))).map
    (fun rw => rw.model)

/-! ## Concrete states used by witnesses and counterexamples -/

/-- Place a token on ring cell `i` (board construction helper). -/
def boardPlace (b : Board) (i : Nat) (t : Token) : Board :=
  { b with cells := setCellToken b.cells i (some t) }

def tokR0 : Token := { id := 0, color := .red, position := 45, isHome := false, isSafe := false }
def tokR1 : Token := { id := 1, color := .red, position := 39, isHome := false, isSafe := true }
def tokB0 : Token := { id := 0, color := .blue, position := 44, isHome := false, isSafe := false }

def demoRed : Player :=
  { pid := 1, color := .red, tokens := [tokR0, tokR1, mkToken 2 .red, mkToken 3 .red],
    consecutiveSix := 0 }

def demoBlue : Player :=
  { pid := 2, color := .blue,
    tokens := [tokB0, mkToken 1 .blue, mkToken 2 .blue, mkToken 3 .blue],
    consecutiveSix := 0 }

def demoBoard : Board :=
  boardPlace (boardPlace (boardPlace newBoard 39 tokR1) 44 tokB0) 45 tokR0

/-- A mid-game position: red to move with a 5; red token 1 on cell 39 can
move onto the non-safe cell 44 occupied by blue token 0. -/
def gCap : Game :=
  { room := { players := [demoRed, demoBlue], maxPlayers := 4, hostId := 1,
              currentTurn := 0, lastDice := 5, state := .playing, isPrivate := false },
    board := demoBoard, rollCount := [(1, 1), (2, 1)] }

/-- The same position with the room already Finished. -/
def gFin : Game :=
  { gCap with room := { gCap.room with state := .finished } }

example : (MoveToken gCap 1 1).1 = some () := by decide
example : (MoveToken gCap 1 1).2.2 =
    [GEvent.tokenMoved 1 1 39 44, GEvent.turnChanged 2] := by decide
example : lookupIdx (MoveToken gCap 1 1).2.1.room.players 1 = some demoBlue := by decide
example : selectTokenHard demoRed 5 demoBoard = some tokR0 := by decide
example : evaluateMove tokR0 5 demoRed demoBoard = 1620 := by decide
example : evaluateMove tokR1 5 demoRed demoBoard = 1440 := by decide
example : (RollDice gFin 1 0).1 = some (1, false) := by decide
example : (RollDice (initGame [newPlayer 1 .red, newPlayer 2 .blue] 4 1 false) 1 0).1
    = some (6, true) := by decide

/-! ## Helper lemmas on list updates and the roll-count map -/

theorem updAt_length {α : Type} (f : α → α) (l : List α) (i : Nat) :
    (updAt f l i).length = l.length := by
  induction l generalizing i with
  | nil => rfl
  | cons x xs ih =>
    cases i with
    | zero => rfl
    | succ n => simp [updAt, ih]

theorem updAt_lookup_eq {α : Type} (f : α → α) (l : List α) (i : Nat) :
    lookupIdx (updAt f l i) i = (lookupIdx l i).map f := by
  induction l generalizing i with
  | nil => cases i <;> rfl
  | cons x xs ih =>
    cases i with
    | zero => rfl
    | succ n => simpa [updAt, lookupIdx] using ih n

theorem updAt_lookup_ne {α : Type} (f : α → α) (l : List α) (i j : Nat) (h : i ≠ j) :
    lookupIdx (updAt f l i) j = lookupIdx l j := by
  induction l generalizing i j with
  | nil => cases i <;> rfl
  | cons x xs ih =>
    cases i with
    | zero =>
      cases j with
      | zero => exact absurd rfl h
      | succ m => rfl
    | succ n =>
      cases j with
      | zero => rfl
      | succ m =>
        simp only [updAt, lookupIdx]
        exact ih n m (fun hnm => h (by rw [hnm]))

theorem lookupIdx_mem {α : Type} (l : List α) (i : Nat) (a : α)
    (h : lookupIdx l i = some a) : a ∈ l := by
  induction l generalizing i with
  | nil => cases i <;> cases h
  | cons x xs ih =>
    cases i with
    | zero => exact (Option.some.inj h) ▸ List.mem_cons_self x xs
    | succ n => exact List.mem_cons_of_mem x (ih n h)

theorem mem_updAt_cases {α : Type} (f : α → α) (l : List α) (i : Nat) (x : α)
    (h : x ∈ updAt f l i) : x ∈ l ∨ ∃ y, lookupIdx l i = some y ∧ x = f y := by
  induction l generalizing i with
  | nil => cases h
  | cons a as ih =>
    cases i with
    | zero =>
      rcases List.mem_cons.mp h with h1 | h1
      · exact Or.inr ⟨a, rfl, h1⟩
      · exact Or.inl (List.mem_cons_of_mem a h1)
    | succ n =>
      rcases List.mem_cons.mp h with h1 | h1
      · exact Or.inl (h1 ▸ List.mem_cons_self a as)
      · rcases ih n h1 with h2 | ⟨y, hy, hx⟩
        · exact Or.inl (List.mem_cons_of_mem a h2)
        · exact Or.inr ⟨y, hy, hx⟩

theorem lGet_eq_lookup {α : Type} (d : α) (l : List α) (i : Nat) :
    lGet d l i = (lookupIdx l i).getD d := by
  induction l generalizing i with
  | nil => cases i <;> rfl
  | cons x xs ih =>
    cases i with
    | zero => rfl
    | succ n => simpa [lGet, lookupIdx] using ih n

theorem lGet_mem {α : Type} (d : α) (l : List α) (i : Nat) (h : i < l.length) :
    lGet d l i ∈ l := by
  induction l generalizing i with
  | nil => simp at h
  | cons x xs ih =>
    cases i with
    | zero => exact List.mem_cons_self x xs
    | succ n =>
      exact List.mem_cons_of_mem x (ih n (Nat.lt_of_succ_lt_succ h))

theorem lookup_isSome_of_lt {α : Type} (l : List α) (i : Nat) (h : i < l.length) :
    ∃ y, lookupIdx l i = some y := by
  induction l generalizing i with
  | nil => simp at h
  | cons x xs ih =>
    cases i with
    | zero => exact ⟨x, rfl⟩
    | succ n => exact ih n (Nat.lt_of_succ_lt_succ h)

theorem rcGet_rcSet_self (rc : List (Int × Nat)) (pid : Int) (v : Nat) :
    rcGet (rcSet rc pid v) pid = v := by
  induction rc with
  | nil => simp [rcGet, rcSet]
  | cons e rest ih =>
    by_cases he : e.1 = pid
    · simp [rcSet, he, rcGet]
    · simp [rcSet, he, rcGet, ih]

theorem rcGet_rcSet_ne (rc : List (Int × Nat)) (pid q : Int) (v : Nat) (h : q ≠ pid) :
    rcGet (rcSet rc pid v) q = rcGet rc q := by
  have hpq : ¬ pid = q := fun hh => h hh.symm
  induction rc with
  | nil => simp [rcGet, rcSet, hpq]
  | cons e rest ih =>
    by_cases he : e.1 = pid
    · have hq : ¬ e.1 = q := fun hh => h (by rw [← hh, he])
      simp [rcSet, he, rcGet, hpq, hq]
    · by_cases hq : e.1 = q
      · simp [rcSet, he, rcGet, hq, h]
      · simp [rcSet, he, rcGet, hq, ih]

theorem riggedValue_range (n draw : Nat) :
    1 ≤ riggedValue n draw ∧ riggedValue n draw ≤ 6 := by
  unfold riggedValue
  split
  · exact ⟨by norm_num, by norm_num⟩
  · constructor <;> omega

/-! ## Engine lemmas -/

theorem lGet_updAt_eq {α : Type} (d : α) (f : α → α) (l : List α) (i : Nat)
    (h : i < l.length) : lGet d (updAt f l i) i = f (lGet d l i) := by
  induction l generalizing i with
  | nil => simp at h
  | cons x xs ih =>
    cases i with
    | zero => rfl
    | succ n => exact ih n (Nat.lt_of_succ_lt_succ h)

theorem setHS_cells (b : Board) (c : Color) (l : List Cell) :
    (b.setHS c l).cells = b.cells := by
  cases c <;> rfl

theorem calcNewPos_nonneg (t : Token) (dv : Int) (c : Color)
    (hpos : t.position = -1 ∨ 0 ≤ t.position) (hdv : 0 ≤ dv) :
    0 ≤ calculateNewPosition t dv c := by
  by_cases h0 : t.position = -1
  · simp only [calculateNewPosition, if_pos h0]
    cases c <;> simp [startingPositions]
  · have hp0 : 0 ≤ t.position := by
      rcases hpos with h1 | h1
      · exact absurd h1 h0
      · exact h1
    by_cases hA : t.position < homeStretchStart c ∧ homeStretchStart c ≤ t.position + dv
    · simp only [calculateNewPosition, if_neg h0, if_pos hA]
      omega
    · by_cases hB : 52 ≤ t.position + dv ∧ t.position < 52
      · simp only [calculateNewPosition, if_neg h0, if_neg hA, if_pos hB]
        exact Int.emod_nonneg _ (by norm_num)
      · simp only [calculateNewPosition, if_neg h0, if_neg hA, if_neg hB]
        omega

theorem canMoveToken_le57 (b : Board) (t : Token) (dv : Int) (c : Color)
    (h : canMoveToken b t dv c = true) : calculateNewPosition t dv c ≤ 57 := by
  unfold canMoveToken at h
  by_cases h57 : 57 < calculateNewPosition t dv c
  · split at h
    · exact absurd h (by simp)
    · split at h
      · exact absurd h (by simp)
      · rw [if_pos h57] at h
        exact absurd h (by simp)
  · omega

theorem canMoveToken_notHome (b : Board) (t : Token) (dv : Int) (c : Color)
    (h : canMoveToken b t dv c = true) : t.isHome = false := by
  unfold canMoveToken at h
  split at h
  · exact absurd h (by simp)
  · rename_i hh
    simp at hh
    exact hh

theorem moveTokenToPosition_fst (b : Board) (t : Token) (np : Int) (c : Color) :
    ((moveTokenToPosition b t np c).1).position = np ∧
    ((moveTokenToPosition b t np c).1).color = t.color ∧
    ((moveTokenToPosition b t np c).1).id = t.id := by
  by_cases h3 : 52 ≤ np <;> by_cases h4 : 6 ≤ np - 52 <;>
    simp [moveTokenToPosition, h3, h4]

theorem clearOldCell_cells_length (b : Board) (t : Token) (c : Color) :
    (clearOldCell b t c).cells.length = b.cells.length := by
  unfold clearOldCell
  split
  · simp [setCellToken, updAt_length]
  · split
    · rw [setHS_cells]
    · rfl

theorem moveTokenToPosition_cells_length (b : Board) (t : Token) (np : Int) (c : Color) :
    ((moveTokenToPosition b t np c).2).cells.length = b.cells.length := by
  by_cases h3 : 52 ≤ np <;>
  by_cases h4 : 6 ≤ np - 52 <;>
    simp [moveTokenToPosition, h3, h4, setHS_cells, setCellToken, updAt_length,
      clearOldCell_cells_length]

theorem checkCapture_after_move (b : Board) (t : Token) (np : Int) (c : Color)
    (players : List Player) (hcol : t.color = c) (hlen : b.cells.length = 52) :
    checkCapture (moveTokenToPosition b t np c).2 players np c =
      (none, (moveTokenToPosition b t np c).2, players) := by
  by_cases hr : np < 0 ∨ 52 ≤ np
  · simp [checkCapture, if_pos hr]
  · have hnp52 : ¬ 52 ≤ np := fun hh => hr (Or.inr hh)
    have hlt : np.toNat < (clearOldCell b t c).cells.length := by
      rw [clearOldCell_cells_length, hlen]
      omega
    simp only [moveTokenToPosition, if_neg hnp52]
    simp only [checkCapture, if_neg hr, setCellToken]
    rw [lGet_updAt_eq _ _ _ _ hlt]
    dsimp only
    by_cases hS : (lGet dummyCell (clearOldCell b t c).cells np.toNat).isSafe = true
    · rw [if_pos hS]
    · rw [if_neg hS, if_pos hcol]

/-- The outcome of a validated move once the capture check is resolved to
`none` (which it always is, see `checkCapture_after_move`). -/
def moveResult (g : Game) (cur : Player) (pid : Int) (j : Nat) (token : Token)
    (dv : Int) : Option Unit × Game × List GEvent :=
  let np := calculateNewPosition token dv cur.color
  let mb := moveTokenToPosition g.board token np cur.color
  let players1 := setPlayerAt g.room.players g.room.currentTurn
    (fun p => { p with tokens := updAt (fun _ => mb.1) p.tokens j })
  let evMove := [GEvent.tokenMoved pid token.id token.position np]
  if checkWin (lGet dummyPlayer players1 g.room.currentTurn) then
    (some (),
     { room := { g.room with players := players1, state := .finished },
       board := mb.2, rollCount := g.rollCount },
     evMove ++ [GEvent.gameOver pid])
  else if dv ≠ 6 then
    (some (),
     { room := (nextTurn { g.room with players := players1 }).1,
       board := mb.2, rollCount := g.rollCount },
     evMove ++ (nextTurn { g.room with players := players1 }).2)
  else
    (some (),
     { room := { g.room with players := players1 }, board := mb.2,
       rollCount := g.rollCount },
     evMove)

theorem moveTokenCore_eq (g : Game) (cur : Player) (pid : Int) (j : Nat) (token : Token)
    (dv : Int) (hcol : token.color = cur.color) (hlen : g.board.cells.length = 52) :
    moveTokenCore g cur pid j token dv = moveResult g cur pid j token dv := by
  simp only [moveTokenCore]
  rw [checkCapture_after_move g.board token (calculateNewPosition token dv cur.color)
    cur.color _ hcol hlen]
  simp [capEvents, moveResult]

/-! ## The reachable-state invariant -/

/-- A token position is in base or on the 58 board positions. -/
def tokenOK (t : Token) : Prop :=
  t.position = -1 ∨ (0 ≤ t.position ∧ t.position ≤ 57)

/-- Engine-state invariant: token positions in range, token colors match
their owning player, last dice in [0, 6] (0 before the first roll), and
52 ring cells. -/
def GameInv (g : Game) : Prop :=
  (∀ p ∈ g.room.players, ∀ t ∈ p.tokens, tokenOK t ∧ t.color = p.color) ∧
  (0 ≤ g.room.lastDice ∧ g.room.lastDice ≤ 6) ∧
  g.board.cells.length = 52

theorem GameInv_initGame (ps : List Player) (mp hid : Int) (priv : Bool)
    (h : ∀ p ∈ ps, ∃ q c, p = newPlayer q c) : GameInv (initGame ps mp hid priv) := by
  refine ⟨?_, ⟨by simp [initGame], by simp [initGame]⟩, ?_⟩
  · intro p hp t ht
    obtain ⟨q, c, rfl⟩ := h p hp
    simp only [newPlayer] at ht
    rcases List.mem_cons.mp ht with h1 | ht
    · subst h1
      exact ⟨Or.inl rfl, rfl⟩
    rcases List.mem_cons.mp ht with h1 | ht
    · subst h1
      exact ⟨Or.inl rfl, rfl⟩
    rcases List.mem_cons.mp ht with h1 | ht
    · subst h1
      exact ⟨Or.inl rfl, rfl⟩
    rcases List.mem_cons.mp ht with h1 | ht
    · subst h1
      exact ⟨Or.inl rfl, rfl⟩
    cases ht
  · simp [initGame, newBoard]

theorem playersOK_updAt (ps : List Player) (i : Nat) (f : Player → Player)
    (hf : ∀ p, (f p).tokens = p.tokens ∧ (f p).color = p.color)
    (h : ∀ p ∈ ps, ∀ t ∈ p.tokens, tokenOK t ∧ t.color = p.color) :
    ∀ p ∈ updAt f ps i, ∀ t ∈ p.tokens, tokenOK t ∧ t.color = p.color := by
  intro p hp t ht
  rcases mem_updAt_cases f ps i p hp with h1 | ⟨y, hy, rfl⟩
  · exact h p h1 t ht
  · obtain ⟨hts, hc⟩ := hf y
    rw [hts] at ht
    have hm := h y (lookupIdx_mem _ _ _ hy) t ht
    exact ⟨hm.1, by rw [hc]; exact hm.2⟩

theorem playersOK_setToken (ps : List Player) (i j : Nat) (cur : Player) (t1 : Token)
    (hq : lookupIdx ps i = some cur)
    (h : ∀ p ∈ ps, ∀ t ∈ p.tokens, tokenOK t ∧ t.color = p.color)
    (ht1 : tokenOK t1 ∧ t1.color = cur.color) :
    ∀ p ∈ updAt (fun p => { p with tokens := updAt (fun _ => t1) p.tokens j }) ps i,
      ∀ t ∈ p.tokens, tokenOK t ∧ t.color = p.color := by
  intro p hp t ht
  rcases mem_updAt_cases _ ps i p hp with h1 | ⟨y, hy, rfl⟩
  · exact h p h1 t ht
  · have hycur : y = cur := by
      rw [hy] at hq
      exact Option.some.inj hq
    subst hycur
    rcases mem_updAt_cases _ y.tokens j t ht with h2 | ⟨z, hz, rfl⟩
    · exact h y (lookupIdx_mem _ _ _ hy) t h2
    · exact ⟨ht1.1, ht1.2⟩

theorem nextTurn_players (r : Room) : (nextTurn r).1.players = r.players := by
  cases hq : lookupIdx r.players ((r.currentTurn + 1) % r.players.length) <;>
    simp [nextTurn, hq]

theorem nextTurn_lastDice (r : Room) : (nextTurn r).1.lastDice = r.lastDice := by
  cases hq : lookupIdx r.players ((r.currentTurn + 1) % r.players.length) <;>
    simp [nextTurn, hq]

theorem nextTurn_state (r : Room) : (nextTurn r).1.state = r.state := by
  cases hq : lookupIdx r.players ((r.currentTurn + 1) % r.players.length) <;>
    simp [nextTurn, hq]

theorem nextTurn_currentTurn (r : Room) :
    (nextTurn r).1.currentTurn = (r.currentTurn + 1) % r.players.length := by
  cases hq : lookupIdx r.players ((r.currentTurn + 1) % r.players.length) <;>
    simp [nextTurn, hq]

theorem GameInv_start (g : Game) (draw : Nat) (h : GameInv g) :
    GameInv (Start g draw).2.1 := by
  simp only [Start]
  split
  · exact h
  · split
    · exact h
    · cases hq : lookupIdx g.room.players (draw % g.room.players.length) with
      | none => simp only [hq]; exact ⟨h.1, h.2.1, h.2.2⟩
      | some p => simp only [hq]; exact ⟨h.1, h.2.1, h.2.2⟩

theorem GameInv_finishRoll (board : Board) (rcNew : List (Int × Nat)) (room2 : Room)
    (cur : Player) (pid : Int) (dv : Int) (extraTurn : Bool)
    (hps : ∀ p ∈ room2.players, ∀ t ∈ p.tokens, tokenOK t ∧ t.color = p.color)
    (hdv : 0 ≤ room2.lastDice ∧ room2.lastDice ≤ 6)
    (hb : board.cells.length = 52) :
    GameInv (finishRoll board rcNew room2 cur pid dv extraTurn).2.1 := by
  simp only [finishRoll]
  split
  · refine ⟨?_, ?_, hb⟩
    · simp only [nextTurn_players]
      exact hps
    · simp only [nextTurn_lastDice]
      exact hdv
  · exact ⟨hps, hdv, hb⟩

theorem riggedValue_range0 (n draw : Nat) :
    0 ≤ riggedValue n draw ∧ riggedValue n draw ≤ 6 :=
  ⟨le_trans (by norm_num) (riggedValue_range n draw).1, (riggedValue_range n draw).2⟩

theorem GameInv_roll (g : Game) (pid : Int) (draw : Nat) (h : GameInv g) :
    GameInv (RollDice g pid draw).2.1 := by
  simp only [RollDice]
  cases hq : lookupIdx g.room.players g.room.currentTurn with
  | none => exact h
  | some cur =>
    by_cases hpid : cur.pid = pid
    · simp only [if_pos hpid]
      split
      · split
        · refine ⟨?_, ?_, h.2.2⟩
          · simp only [nextTurn_players]
            exact playersOK_updAt _ _ _ (fun p => ⟨rfl, rfl⟩) h.1
          · simp only [nextTurn_lastDice]
            exact riggedValue_range0 (rcGet g.rollCount pid + 1) draw
        · exact GameInv_finishRoll _ _ _ _ _ _ _
            (playersOK_updAt _ _ _ (fun p => ⟨rfl, rfl⟩) h.1)
            (riggedValue_range0 (rcGet g.rollCount pid + 1) draw) h.2.2
      · exact GameInv_finishRoll _ _ _ _ _ _ _
          (playersOK_updAt _ _ _ (fun p => ⟨rfl, rfl⟩) h.1)
          (riggedValue_range0 (rcGet g.rollCount pid + 1) draw) h.2.2
    · simp only [if_neg hpid]
      exact h

theorem GameInv_moveResult (g : Game) (cur : Player) (pid : Int) (j : Nat)
    (token : Token) (dv : Int)
    (hq : lookupIdx g.room.players g.room.currentTurn = some cur)
    (htok : tokenOK token ∧ token.color = cur.color)
    (hdvpos : 0 ≤ dv) (hca : calculateNewPosition token dv cur.color ≤ 57)
    (h : GameInv g) : GameInv (moveResult g cur pid j token dv).2.1 := by
  have hfst := moveTokenToPosition_fst g.board token
    (calculateNewPosition token dv cur.color) cur.color
  have ht1 : tokenOK (moveTokenToPosition g.board token
      (calculateNewPosition token dv cur.color) cur.color).1 ∧
      (moveTokenToPosition g.board token
        (calculateNewPosition token dv cur.color) cur.color).1.color = cur.color := by
    constructor
    · right
      rw [hfst.1]
      refine ⟨calcNewPos_nonneg token dv cur.color ?_ hdvpos, hca⟩
      rcases htok.1 with h1 | h1
      · exact Or.inl h1
      · exact Or.inr h1.1
    · rw [hfst.2.1]
      exact htok.2
  have hps1 := playersOK_setToken g.room.players g.room.currentTurn j cur _ hq h.1 ht1
  have hblen : (moveTokenToPosition g.board token
      (calculateNewPosition token dv cur.color) cur.color).2.cells.length = 52 := by
    rw [moveTokenToPosition_cells_length]
    exact h.2.2
  simp only [moveResult]
  split
  · exact ⟨hps1, h.2.1, hblen⟩
  · split
    · refine ⟨?_, ?_, hblen⟩
      · simp only [nextTurn_players]
        exact hps1
      · simp only [nextTurn_lastDice]
        exact h.2.1
    · exact ⟨hps1, h.2.1, hblen⟩

theorem GameInv_move (g : Game) (pid : Int) (tid : Int) (h : GameInv g) :
    GameInv (MoveToken g pid tid).2.1 := by
  simp only [MoveToken]
  cases hq : lookupIdx g.room.players g.room.currentTurn with
  | none => exact h
  | some cur =>
    by_cases hpid : cur.pid = pid
    · simp only [if_pos hpid]
      by_cases hrange : tid < 0 ∨ (cur.tokens.length : Int) ≤ tid
      · simp only [if_pos hrange]
        exact h
      · simp only [if_neg hrange]
        by_cases hcan : canMoveToken g.board (lGet dummyToken cur.tokens tid.toNat)
            g.room.lastDice cur.color = true
        · simp only [hcan, if_pos]
          have htmem : lGet dummyToken cur.tokens tid.toNat ∈ cur.tokens := by
            apply lGet_mem
            push_neg at hrange
            omega
          have hco := h.1 cur (lookupIdx_mem _ _ _ hq) _ htmem
          rw [moveTokenCore_eq g cur pid tid.toNat _ g.room.lastDice hco.2 h.2.2]
          exact GameInv_moveResult g cur pid tid.toNat _ g.room.lastDice hq
            ⟨hco.1, hco.2⟩ h.2.1.1
            (canMoveToken_le57 g.board _ g.room.lastDice cur.color hcan) h
        · simp only [hcan]
          exact h
    · simp only [if_neg hpid]
      exact h

/-- Every reachable engine state satisfies the invariant. -/
theorem GameInv_reachable (g : Game) (h : Reachable g) : GameInv g := by
  induction h with
  | init ps mp hid priv hps => exact GameInv_initGame ps mp hid priv hps
  | step g a hg ih =>
    cases a with
    | astart d => exact GameInv_start g d ih
    | aroll pid d => exact GameInv_roll g pid d ih
    | amove pid tid => exact GameInv_move g pid tid ih

/-! ## Claim C6 - ListRooms filter -/

/-- C6 (amended): `ListRooms` returns exactly the registered rooms'
models that are public (not private) and in the Waiting state; the
seated-player count is not compared against the room's maximum, so full
rooms are returned as well. -/
theorem claim_C6_listRooms_filter (ms : List RoomW) (r : Room) :
    r ∈ ListRooms ms ↔
      ∃ rw ∈ ms, rw.model = r ∧ r.isPrivate = false ∧ r.state = RState.waiting := by
  simp only [ListRooms, List.mem_map, List.mem_filter, Bool.and_eq_true,
    Bool.not_eq_true', decide_eq_true_eq]
  constructor
  · rintro ⟨rw, ⟨hm, hpriv, hst⟩, rfl⟩
    exact ⟨rw, hm, rfl, hpriv, hst⟩
  · rintro ⟨rw, hm, rfl, hpriv, hst⟩
    exact ⟨rw, ⟨hm, hpriv, hst⟩, rfl⟩

/-- A public Waiting room that is already full (2 of 2 seats taken). -/
def rwFull : RoomW :=
  { model := { players := [newPlayer 1 .red, newPlayer 2 .blue], maxPlayers := 2,
               hostId := 1, currentTurn := 0, lastDice := 0, state := .waiting,
               isPrivate := false },
    conns := [(1, true), (2, true)] }

/-- C6 counterexample: a full public Waiting room is still returned by
`ListRooms`, contradicting the claim that only non-full rooms are listed. -/
theorem claim_C6_counterexample :
    ListRooms [rwFull] = [rwFull.model] ∧
    ¬ ((rwFull.model.players.length : Int) < rwFull.model.maxPlayers) := by
  constructor
  · decide
  · decide

/-! ## Claim C7 - connect validation -/

/-- C7 (amended): for a `connect` message, `ValidateMessage` succeeds iff
the username is non-blank after trimming and the raw, untrimmed
username's length lies in [3, 20] (the length bounds are not applied to
the trimmed username). -/
theorem claim_C7_validate_connect (u : List Char) :
    ValidateMessage (some { vtype := "connect".toList, username := u }) = true ↔
      (trimChars u ≠ [] ∧ 3 ≤ u.length ∧ u.length ≤ 20) := by
  simp only [ValidateMessage]
  rw [if_neg (by decide : ¬ ("connect".toList = ([] : List Char))), if_pos trivial]
  simp only [validateConnect]
  by_cases h1 : trimChars u = []
  · simp [h1]
  · by_cases h2 : u.length < 3 ∨ 20 < u.length
    · simp only [if_neg h1, if_pos h2]
      constructor
      · intro hh
        cases hh
      · intro hh
        omega
    · simp only [if_neg h1, if_neg h2]
      push_neg at h2
      exact ⟨fun _ => ⟨h1, h2.1, h2.2⟩, fun _ => trivial⟩

/-- C7 counterexample: the username " ab " (length 4, trimmed length 2)
is accepted, although its trimmed length is below 3. -/
theorem claim_C7_counterexample :
    ValidateMessage (some { vtype := "connect".toList, username := " ab ".toList })
      = true ∧
    ¬ (3 ≤ (trimChars " ab ".toList).length ∧
       (trimChars " ab ".toList).length ≤ 20) := by
  constructor
  · decide
  · decide

/-! ## Claim C10 - RemovePlayer on a non-seated id -/

theorem removeFirstPlayer_not_mem (ps : List Player) (pid : Int)
    (h : ∀ p ∈ ps, p.pid ≠ pid) : removeFirstPlayer ps pid = ps := by
  induction ps with
  | nil => rfl
  | cons p rest ih =>
    rw [removeFirstPlayer, if_neg (h p (List.mem_cons_self p rest)),
      ih (fun q hq => h q (List.mem_cons_of_mem p hq))]

/-- C10 (amended): removing an id with no connection record and no seat
leaves the connection map and the player list unchanged and reports no
error; the host identifier is also unchanged unless it equals the removed
id while players remain, in which case the first seated player is
promoted to host. -/
theorem claim_C10_removePlayer (rw : RoomW) (pid : Int)
    (hc : ∀ e ∈ rw.conns, e.1 ≠ pid)
    (hp : ∀ p ∈ rw.model.players, p.pid ≠ pid) :
    (RemovePlayer rw pid).conns = rw.conns ∧
    (RemovePlayer rw pid).model.players = rw.model.players ∧
    ((rw.model.hostId ≠ pid ∨ rw.model.players = []) →
      (RemovePlayer rw pid).model.hostId = rw.model.hostId) ∧
    (∀ p0 ps, rw.model.players = p0 :: ps → rw.model.hostId = pid →
      (RemovePlayer rw pid).model.hostId = p0.pid) := by
  have hcn : connsDelete rw.conns pid = rw.conns := by
    apply List.filter_eq_self.mpr
    intro e he
    simpa using hc e he
  have hpl : removeFirstPlayer rw.model.players pid = rw.model.players :=
    removeFirstPlayer_not_mem rw.model.players pid hp
  refine ⟨?_, ?_, ?_, ?_⟩
  · simp only [RemovePlayer, hcn]
  · simp only [RemovePlayer, hpl]
  · intro hh
    simp only [RemovePlayer, hpl]
    rcases hh with hh | hh
    · rw [if_neg (fun hx => hh hx.1)]
    · rw [hh]
      simp
  · intro p0 ps hps hhost
    have hpl2 : removeFirstPlayer (p0 :: ps) pid = p0 :: ps := by
      rw [← hps]
      exact hpl
    simp only [RemovePlayer, hps, hpl2]
    rw [if_pos ⟨hhost, by simp⟩]

/-- A room whose stale host id 1 is not seated: the only seat belongs to
player 2, who also holds the only connection. -/
def rwCE : RoomW :=
  { model := { players := [newPlayer 2 .blue], maxPlayers := 4, hostId := 1,
               currentTurn := 0, lastDice := 0, state := .waiting, isPrivate := false },
    conns := [(2, false)] }

/-- C10 counterexample: removing the non-seated id 1 is not a no-op - the
host identifier changes (to 2) because the stale host id matches. -/
theorem claim_C10_counterexample :
    (∀ e ∈ rwCE.conns, e.1 ≠ (1 : Int)) ∧
    (∀ p ∈ rwCE.model.players, p.pid ≠ (1 : Int)) ∧
    (RemovePlayer rwCE 1).model.hostId ≠ rwCE.model.hostId := by
  refine ⟨?_, ?_, ?_⟩ <;> decide

/-- A room where id 99 is fully absent and distinct from the host. -/
def rwDemo : RoomW :=
  { model := { players := [newPlayer 1 .red], maxPlayers := 4, hostId := 1,
               currentTurn := 0, lastDice := 0, state := .waiting, isPrivate := false },
    conns := [(1, false)] }

theorem claim_C10_witness :
    (RemovePlayer rwDemo 99).conns = rwDemo.conns ∧
    (RemovePlayer rwDemo 99).model.players = rwDemo.model.players ∧
    ((rwDemo.model.hostId ≠ 99 ∨ rwDemo.model.players = []) →
      (RemovePlayer rwDemo 99).model.hostId = rwDemo.model.hostId) ∧
    (∀ p0 ps, rwDemo.model.players = p0 :: ps → rwDemo.model.hostId = 99 →
      (RemovePlayer rwDemo 99).model.hostId = p0.pid) :=
  claim_C10_removePlayer rwDemo 99 (by decide) (by decide)

/-! ## Claim C8 - message round trip -/

/-- C8: decoding an encoded `NetworkMessage` restores every field
(type, payload, timestamp, player id, room id), including the
`omitempty` fields through their zero values. -/
theorem claim_C8_roundtrip (m : NetMsg) : DecodeMessage (EncodeMessage m) = some m := by
  obtain ⟨mt, pl, ts, pid, rid⟩ := m
  have ne1 : ¬ (typeKey = payloadKey) := by decide
  have ne2 : ¬ (typeKey = timestampKey) := by decide
  have ne3 : ¬ (typeKey = playerIdKey) := by decide
  have ne4 : ¬ (typeKey = roomIdKey) := by decide
  have ne5 : ¬ (payloadKey = timestampKey) := by decide
  have ne6 : ¬ (payloadKey = playerIdKey) := by decide
  have ne7 : ¬ (payloadKey = roomIdKey) := by decide
  have ne8 : ¬ (timestampKey = playerIdKey) := by decide
  have ne9 : ¬ (timestampKey = roomIdKey) := by decide
  have ne10 : ¬ (playerIdKey = roomIdKey) := by decide
  have ne11 : ¬ (roomIdKey = playerIdKey) := by decide
  by_cases hp : pid = 0 <;> by_cases hr : rid = ([] : List Char) <;>
    simp [EncodeMessage, DecodeMessage, jGet, hp, hr,
      ne1, ne2, ne3, ne4, ne5, ne6, ne7, ne8, ne9, ne10, ne11]

/-! ## Claims C2 and C3 - dice rigging and the three-six rule -/

theorem riggedValue_rigged (n draw : Nat) (h : n = 1 ∨ n % 5 = 0) :
    riggedValue n draw = 6 := by
  unfold riggedValue
  exact if_pos h

theorem finishRoll_fst (board : Board) (rcNew : List (Int × Nat)) (room2 : Room)
    (cur : Player) (pid : Int) (dv : Int) (extraTurn : Bool) :
    (finishRoll board rcNew room2 cur pid dv extraTurn).1 = some (dv, extraTurn) := by
  simp only [finishRoll]
  split <;> rfl

theorem finishRoll_rollCount (board : Board) (rcNew : List (Int × Nat)) (room2 : Room)
    (cur : Player) (pid : Int) (dv : Int) (extraTurn : Bool) :
    (finishRoll board rcNew room2 cur pid dv extraTurn).2.1.rollCount = rcNew := by
  simp only [finishRoll]
  split <;> rfl

theorem moveTokenCore_rollCount (g : Game) (cur : Player) (pid : Int) (j : Nat)
    (token : Token) (dv : Int) :
    (moveTokenCore g cur pid j token dv).2.1.rollCount = g.rollCount := by
  simp only [moveTokenCore]
  split
  · rfl
  · split <;> rfl

theorem lookup_lt_length {α : Type} (l : List α) (i : Nat) (a : α)
    (h : lookupIdx l i = some a) : i < l.length := by
  induction l generalizing i with
  | nil => cases i <;> cases h
  | cons x xs ih =>
    cases i with
    | zero => exact Nat.succ_pos _
    | succ n => exact Nat.succ_lt_succ (ih n h)

/-- C2: a successful `RollDice` increments exactly the roller's counter,
leaves the state untouched on failure, and the returned value is 6 on
the first and on every fifth roll and always lies in [1, 6]; neither
`MoveToken` nor `Start` touches the roll counters. -/
theorem claim_C2_dice_rigging (g : Game) (pid : Int) (draw : Nat) :
    ((RollDice g pid draw).1 = none → (RollDice g pid draw).2.1 = g) ∧
    (∀ v et, (RollDice g pid draw).1 = some (v, et) →
      rcGet (RollDice g pid draw).2.1.rollCount pid = rcGet g.rollCount pid + 1 ∧
      (∀ q, q ≠ pid → rcGet (RollDice g pid draw).2.1.rollCount q = rcGet g.rollCount q) ∧
      ((rcGet g.rollCount pid + 1 = 1 ∨ (rcGet g.rollCount pid + 1) % 5 = 0) → v = 6) ∧
      1 ≤ v ∧ v ≤ 6) ∧
    (∀ tid draw2, (MoveToken g pid tid).2.1.rollCount = g.rollCount ∧
      (Start g draw2).2.1.rollCount = g.rollCount) := by
  refine ⟨?_, ?_, ?_⟩
  · simp only [RollDice]
    cases hq : lookupIdx g.room.players g.room.currentTurn with
    | none => exact fun _ => rfl
    | some cur =>
      by_cases hpid : cur.pid = pid
      · simp only [if_pos hpid]
        split
        · split
          · intro h
            cases h
          · intro h
            rw [finishRoll_fst] at h
            cases h
        · intro h
          rw [finishRoll_fst] at h
          cases h
      · simp only [if_neg hpid]
        trivial
  · intro v et
    simp only [RollDice]
    cases hq : lookupIdx g.room.players g.room.currentTurn with
    | none =>
      intro h
      cases h
    | some cur =>
      by_cases hpid : cur.pid = pid
      · simp only [if_pos hpid]
        have hconc : ∀ hv : riggedValue (rcGet g.rollCount pid + 1) draw = v,
            rcGet (rcSet g.rollCount pid (rcGet g.rollCount pid + 1)) pid =
              rcGet g.rollCount pid + 1 ∧
            (∀ q, q ≠ pid →
              rcGet (rcSet g.rollCount pid (rcGet g.rollCount pid + 1)) q =
                rcGet g.rollCount q) ∧
            ((rcGet g.rollCount pid + 1 = 1 ∨ (rcGet g.rollCount pid + 1) % 5 = 0) →
              v = 6) ∧
            1 ≤ v ∧ v ≤ 6 := by
          intro hv
          refine ⟨rcGet_rcSet_self _ _ _, fun q hqne => rcGet_rcSet_ne _ _ _ _ hqne, ?_, ?_⟩
          · intro hrig
            rw [← hv]
            exact riggedValue_rigged _ _ hrig
          · rw [← hv]
            exact riggedValue_range _ _
        split
        · split
          · intro h
            have h1 : riggedValue (rcGet g.rollCount pid + 1) draw = v :=
              congrArg Prod.fst (Option.some.inj h)
            exact hconc h1
          · intro h
            rw [finishRoll_fst] at h
            have h1 : riggedValue (rcGet g.rollCount pid + 1) draw = v :=
              congrArg Prod.fst (Option.some.inj h)
            rw [finishRoll_rollCount]
            exact hconc h1
        · intro h
          rw [finishRoll_fst] at h
          have h1 : riggedValue (rcGet g.rollCount pid + 1) draw = v :=
            congrArg Prod.fst (Option.some.inj h)
          rw [finishRoll_rollCount]
          exact hconc h1
      · simp only [if_neg hpid]
        intro h
        cases h
  · intro tid draw2
    constructor
    · simp only [MoveToken]
      cases hq : lookupIdx g.room.players g.room.currentTurn with
      | none => rfl
      | some cur =>
        by_cases hpid : cur.pid = pid
        · simp only [if_pos hpid]
          by_cases hrange : tid < 0 ∨ (cur.tokens.length : Int) ≤ tid
          · simp only [if_pos hrange]
          · simp only [if_neg hrange]
            by_cases hcan : canMoveToken g.board (lGet dummyToken cur.tokens tid.toNat)
                g.room.lastDice cur.color = true
            · simp only [hcan, if_pos]
              exact moveTokenCore_rollCount _ _ _ _ _ _
            · simp only [hcan]
              rfl
        · simp only [if_neg hpid]
    · simp only [Start]
      split
      · rfl
      · split
        · rfl
        · cases hq : lookupIdx g.room.players (draw2 % g.room.players.length) with
          | none => simp only [hq]
          | some p => simp only [hq]

theorem nextTurn_events (r : Room) (h : 0 < r.players.length) :
    ∃ p : Player, (nextTurn r).2 = [GEvent.turnChanged p.pid] := by
  obtain ⟨p, hp⟩ := lookup_isSome_of_lt r.players
    ((r.currentTurn + 1) % r.players.length) (Nat.mod_lt _ h)
  refine ⟨p, ?_⟩
  simp [nextTurn, hp]

theorem finishRoll_players (board : Board) (rcNew : List (Int × Nat)) (room2 : Room)
    (cur : Player) (pid : Int) (dv : Int) (extraTurn : Bool) :
    (finishRoll board rcNew room2 cur pid dv extraTurn).2.1.room.players =
      room2.players := by
  simp only [finishRoll]
  split
  · exact nextTurn_players room2
  · rfl

/-- C3: when the current player's counter stands at 2 and the dice shows
6, `RollDice` returns `(6, false)`, zeroes the counter, advances the
turn, and fires exactly one dice-rolled event (with `extraTurn = false`)
after the turn-changed event; any non-6 roll zeroes the counter. -/
theorem claim_C3_triple_six :
    (∀ (g : Game) (pid : Int) (draw : Nat) (cur : Player),
      lookupIdx g.room.players g.room.currentTurn = some cur →
      cur.pid = pid →
      cur.consecutiveSix = 2 →
      riggedValue (rcGet g.rollCount pid + 1) draw = 6 →
      (RollDice g pid draw).1 = some (6, false) ∧
      (RollDice g pid draw).2.1.room.currentTurn =
        (g.room.currentTurn + 1) % g.room.players.length ∧
      (∃ p2, lookupIdx (RollDice g pid draw).2.1.room.players g.room.currentTurn =
          some p2 ∧ p2.consecutiveSix = 0 ∧ p2.tokens = cur.tokens) ∧
      (∃ x, (RollDice g pid draw).2.2 =
        [GEvent.turnChanged x, GEvent.diceRolled pid 6 false])) ∧
    (∀ (g : Game) (pid : Int) (draw : Nat) (cur : Player),
      lookupIdx g.room.players g.room.currentTurn = some cur →
      cur.pid = pid →
      riggedValue (rcGet g.rollCount pid + 1) draw ≠ 6 →
      ∃ p2, lookupIdx (RollDice g pid draw).2.1.room.players g.room.currentTurn =
        some p2 ∧ p2.consecutiveSix = 0 ∧ p2.tokens = cur.tokens) := by
  constructor
  · intro g pid draw cur hcur hpid hcs hval
    have hct : g.room.currentTurn < g.room.players.length :=
      lookup_lt_length _ _ _ hcur
    simp only [RollDice, hcur, if_pos hpid]
    rw [hval, if_pos rfl, hcs, if_pos (by norm_num : 3 ≤ 2 + 1)]
    dsimp only
    refine ⟨rfl, ?_, ?_, ?_⟩
    · rw [nextTurn_currentTurn]
      simp [setPlayerAt, updAt_length]
    · rw [nextTurn_players]
      refine ⟨{ cur with consecutiveSix := 0 }, ?_, rfl, rfl⟩
      simp only [setPlayerAt]
      rw [updAt_lookup_eq, hcur]
      rfl
    · obtain ⟨p, hp⟩ := nextTurn_events
        { g.room with
          lastDice := 6,
          players := setPlayerAt g.room.players g.room.currentTurn
            (fun q => { q with consecutiveSix := 0 }) }
        (by simpa [setPlayerAt, updAt_length] using
          Nat.lt_of_le_of_lt (Nat.zero_le _) hct)
      exact ⟨p.pid, by rw [hp]; rfl⟩
  · intro g pid draw cur hcur hpid hval
    simp only [RollDice, hcur, if_pos hpid, if_neg hval]
    rw [finishRoll_players]
    refine ⟨{ cur with consecutiveSix := 0 }, ?_, rfl, rfl⟩
    simp only [setPlayerAt]
    rw [updAt_lookup_eq, hcur]
    rfl

/-! ## Claim C4 - win transition and the missing Finished guard -/

theorem MoveToken_success (g : Game) (pid tid : Int)
    (h : (MoveToken g pid tid).1 = some ()) :
    ∃ cur, lookupIdx g.room.players g.room.currentTurn = some cur ∧ cur.pid = pid ∧
      MoveToken g pid tid =
        moveTokenCore g cur pid tid.toNat (lGet dummyToken cur.tokens tid.toNat)
          g.room.lastDice ∧
      canMoveToken g.board (lGet dummyToken cur.tokens tid.toNat) g.room.lastDice
        cur.color = true ∧
      tid.toNat < cur.tokens.length := by
  simp only [MoveToken] at h
  cases hq : lookupIdx g.room.players g.room.currentTurn with
  | none =>
    simp only [hq] at h
    cases h
  | some cur =>
    simp only [hq] at h
    by_cases hpid : cur.pid = pid
    · rw [if_pos hpid] at h
      by_cases hrange : tid < 0 ∨ (cur.tokens.length : Int) ≤ tid
      · rw [if_pos hrange] at h
        cases h
      · rw [if_neg hrange] at h
        by_cases hcan : canMoveToken g.board (lGet dummyToken cur.tokens tid.toNat)
            g.room.lastDice cur.color = true
        · refine ⟨cur, rfl, hpid, ?_, hcan, ?_⟩
          · simp only [MoveToken, hq, if_pos hpid, if_neg hrange, hcan, if_pos]
          · push_neg at hrange
            omega
        · rw [if_neg hcan] at h
          cases h
    · rw [if_neg hpid] at h
      cases h

theorem moveResult_state_iff (g : Game) (cur : Player) (pid : Int) (j : Nat)
    (token : Token) (dv : Int) (hct : g.room.currentTurn < g.room.players.length) :
    ∃ q, lookupIdx (moveResult g cur pid j token dv).2.1.room.players
        g.room.currentTurn = some q ∧
      ((moveResult g cur pid j token dv).2.1.room.state = RState.finished ↔
        (g.room.state = RState.finished ∨ checkWin q = true)) := by
  have hlen : (setPlayerAt g.room.players g.room.currentTurn
      (fun p => { p with tokens := updAt (fun _ =>
        (moveTokenToPosition g.board token
          (calculateNewPosition token dv cur.color) cur.color).1) p.tokens j })).length
      = g.room.players.length := updAt_length _ _ _
  obtain ⟨q0, hq0⟩ := lookup_isSome_of_lt _ g.room.currentTurn (by rw [hlen]; exact hct)
  have hgetq : lGet dummyPlayer (setPlayerAt g.room.players g.room.currentTurn
      (fun p => { p with tokens := updAt (fun _ =>
        (moveTokenToPosition g.board token
          (calculateNewPosition token dv cur.color) cur.color).1) p.tokens j }))
      g.room.currentTurn = q0 := by
    rw [lGet_eq_lookup, hq0]
    rfl
  simp only [moveResult]
  split
  · rename_i hwin
    rw [hgetq] at hwin
    exact ⟨q0, hq0, iff_of_true rfl (Or.inr hwin)⟩
  · rename_i hwin
    rw [hgetq] at hwin
    split
    · refine ⟨q0, ?_, ?_⟩
      · show lookupIdx (nextTurn _).1.players _ = _
        rw [nextTurn_players]
        exact hq0
      · show (nextTurn _).1.state = _ ↔ _
        rw [nextTurn_state]
        constructor
        · exact fun hh => Or.inl hh
        · rintro (hh | hh)
          · exact hh
          · exact absurd hh hwin
    · refine ⟨q0, hq0, ?_⟩
      constructor
      · exact fun hh => Or.inl hh
      · rintro (hh | hh)
        · exact hh
        · exact absurd hh hwin

theorem RollDice_success_iff (g : Game) (pid : Int) (draw : Nat) :
    (RollDice g pid draw).1 ≠ none ↔
      ∃ cur, lookupIdx g.room.players g.room.currentTurn = some cur ∧
        cur.pid = pid := by
  simp only [RollDice]
  cases hq : lookupIdx g.room.players g.room.currentTurn with
  | none =>
    constructor
    · intro h
      exact absurd rfl h
    · rintro ⟨cur, hc, hcp⟩
      cases hc
  | some cur =>
    by_cases hpid : cur.pid = pid
    · simp only [if_pos hpid]
      constructor
      · intro _
        exact ⟨cur, rfl, hpid⟩
      · intro _
        split
        · split
          · simp
          · rw [finishRoll_fst]
            simp
        · rw [finishRoll_fst]
          simp
    · simp only [if_neg hpid]
      constructor
      · intro h
        exact absurd rfl h
      · rintro ⟨cur2, hc2, hp2⟩
        cases Option.some.inj hc2
        exact absurd hp2 hpid

/-- C4 (amended): after a successful `MoveToken` the room is Finished
exactly when it already was Finished or all four of the mover's tokens
are home; but neither `RollDice` nor `MoveToken` consults the room
state, so a `RollDice` by the seat whose turn it is succeeds even in a
Finished room (success depends only on the turn check). -/
theorem claim_C4_finish_no_guard :
    (∀ (g : Game) (pid tid : Int), GameInv g → (MoveToken g pid tid).1 = some () →
      ∃ q, lookupIdx (MoveToken g pid tid).2.1.room.players g.room.currentTurn =
          some q ∧
        ((MoveToken g pid tid).2.1.room.state = RState.finished ↔
          (g.room.state = RState.finished ∨ checkWin q = true))) ∧
    (∀ (g : Game) (pid : Int) (draw : Nat),
      (RollDice g pid draw).1 ≠ none ↔
        ∃ cur, lookupIdx g.room.players g.room.currentTurn = some cur ∧
          cur.pid = pid) := by
  constructor
  · intro g pid tid hinv hsucc
    obtain ⟨cur, hq, hpid, heq, hcan, hlt⟩ := MoveToken_success g pid tid hsucc
    have hco := hinv.1 cur (lookupIdx_mem _ _ _ hq)
      (lGet dummyToken cur.tokens tid.toNat)
      (lGet_mem dummyToken cur.tokens tid.toNat hlt)
    rw [heq, moveTokenCore_eq g cur pid tid.toNat _ g.room.lastDice hco.2 hinv.2.2]
    exact moveResult_state_iff g cur pid tid.toNat _ g.room.lastDice
      (lookup_lt_length _ _ _ hq)
  · exact RollDice_success_iff

/-- C4 counterexample: in the Finished state `gFin` the current player's
`RollDice` still succeeds. -/
theorem claim_C4_counterexample :
    gFin.room.state = RState.finished ∧ (RollDice gFin 1 0).1 ≠ none := by
  constructor
  · rfl
  · decide

theorem claim_C4_witness :
    (∃ q, lookupIdx (MoveToken gCap 1 1).2.1.room.players gCap.room.currentTurn =
        some q ∧
      ((MoveToken gCap 1 1).2.1.room.state = RState.finished ↔
        (gCap.room.state = RState.finished ∨ checkWin q = true))) ∧
    ((RollDice gCap 1 0).1 ≠ none ↔
      ∃ cur, lookupIdx gCap.room.players gCap.room.currentTurn = some cur ∧
        cur.pid = 1) :=
  ⟨claim_C4_finish_no_guard.1 gCap 1 1
      (by unfold GameInv tokenOK; decide) (by decide),
   claim_C4_finish_no_guard.2 gCap 1 0⟩

/-! ## Claim C1 - captures never happen -/

def isCaptureEvent : GEvent → Bool
  | .tokenCaptured _ _ _ _ => true
  | _ => false

theorem nextTurn_events_shape (r : Room) :
    (nextTurn r).2 = [] ∨
      ∃ p : Player, (nextTurn r).2 = [GEvent.turnChanged p.pid] := by
  cases hq : lookupIdx r.players ((r.currentTurn + 1) % r.players.length) with
  | none =>
    left
    simp [nextTurn, hq]
  | some p =>
    right
    exact ⟨p, by simp [nextTurn, hq]⟩

theorem nextTurn_no_capture (r : Room) :
    ∀ e ∈ (nextTurn r).2, isCaptureEvent e = false := by
  intro e he
  rcases nextTurn_events_shape r with hs | ⟨p, hs⟩
  · rw [hs] at he
    cases he
  · rw [hs] at he
    rcases List.mem_singleton.mp he with rfl
    rfl

/-- C1 (with the source as written): `MoveToken` never fires a
token-captured event and never changes any player other than the mover -
`moveTokenToPosition` has already overwritten the destination cell with
the moving token when `checkCapture` runs, so the capture path is dead
code. -/
theorem claim_C1_capture_dead (g : Game) (pid tid : Int)
    (hlen : g.board.cells.length = 52)
    (hcol : ∀ p ∈ g.room.players, ∀ t ∈ p.tokens, t.color = p.color) :
    (∀ e ∈ (MoveToken g pid tid).2.2, isCaptureEvent e = false) ∧
    (∀ i, i ≠ g.room.currentTurn →
      lookupIdx (MoveToken g pid tid).2.1.room.players i =
        lookupIdx g.room.players i) := by
  simp only [MoveToken]
  cases hq : lookupIdx g.room.players g.room.currentTurn with
  | none =>
    exact ⟨fun e he => absurd he (List.not_mem_nil e), fun i hi => rfl⟩
  | some cur =>
    by_cases hpid : cur.pid = pid
    · simp only [if_pos hpid]
      by_cases hrange : tid < 0 ∨ (cur.tokens.length : Int) ≤ tid
      · simp only [if_pos hrange]
        exact ⟨fun e he => absurd he (List.not_mem_nil e), fun i hi => by trivial⟩
      · simp only [if_neg hrange]
        by_cases hcan : canMoveToken g.board (lGet dummyToken cur.tokens tid.toNat)
            g.room.lastDice cur.color = true
        · simp only [hcan, if_pos]
          have hlt : tid.toNat < cur.tokens.length := by
            push_neg at hrange
            omega
          have hco := hcol cur (lookupIdx_mem _ _ _ hq)
            (lGet dummyToken cur.tokens tid.toNat)
            (lGet_mem dummyToken cur.tokens tid.toNat hlt)
          rw [moveTokenCore_eq g cur pid tid.toNat _ g.room.lastDice hco hlen]
          constructor
          · simp only [moveResult]
            split
            · intro e he
              rcases List.mem_append.mp he with h1 | h1
              · rcases List.mem_singleton.mp h1 with rfl
                rfl
              · rcases List.mem_singleton.mp h1 with rfl
                rfl
            · split
              · intro e he
                rcases List.mem_append.mp he with h1 | h1
                · rcases List.mem_singleton.mp h1 with rfl
                  rfl
                · exact nextTurn_no_capture _ e h1
              · intro e he
                rcases List.mem_singleton.mp he with rfl
                rfl
          · simp only [moveResult]
            split
            · intro i hi
              exact updAt_lookup_ne _ _ _ _ (fun hh => hi hh.symm)
            · split
              · intro i hi
                show lookupIdx (nextTurn _).1.players i = _
                rw [nextTurn_players]
                exact updAt_lookup_ne _ _ _ _ (fun hh => hi hh.symm)
              · intro i hi
                exact updAt_lookup_ne _ _ _ _ (fun hh => hi hh.symm)
        · simp only [hcan]
          exact ⟨fun e he => absurd he (List.not_mem_nil e), fun i hi => by trivial⟩
    · simp only [if_neg hpid]
      exact ⟨fun e he => absurd he (List.not_mem_nil e), fun i hi => by trivial⟩

theorem claim_C1_witness :
    gCap.board.cells.length = 52 ∧
    isCaptureEvent (GEvent.tokenMoved 1 1 39 44) = false ∧
    lookupIdx (MoveToken gCap 1 1).2.1.room.players 1 =
      lookupIdx gCap.room.players 1 := by
  refine ⟨by decide, ?_, ?_⟩
  · exact (claim_C1_capture_dead gCap 1 1 (by decide) (by decide)).1
      (GEvent.tokenMoved 1 1 39 44) (by decide)
  · exact (claim_C1_capture_dead gCap 1 1 (by decide) (by decide)).2 1 (by decide)

/-! ## Claim C5 - position range and home tokens never move -/

theorem start_players (g : Game) (d : Nat) :
    (Start g d).2.1.room.players = g.room.players := by
  simp only [Start]
  split
  · rfl
  · split
    · rfl
    · cases hq : lookupIdx g.room.players (d % g.room.players.length) with
      | none => simp only [hq]
      | some p => simp only [hq]

theorem roll_players_shape (g : Game) (pid : Int) (d : Nat) (i : Nat) (p : Player)
    (hp : lookupIdx g.room.players i = some p) :
    ∃ q, lookupIdx (RollDice g pid d).2.1.room.players i = some q ∧
      q.tokens = p.tokens := by
  simp only [RollDice]
  cases hq : lookupIdx g.room.players g.room.currentTurn with
  | none => exact ⟨p, hp, rfl⟩
  | some cur =>
    by_cases hpid : cur.pid = pid
    · simp only [if_pos hpid]
      have key : ∀ v : Nat, ∃ q, lookupIdx (setPlayerAt g.room.players
          g.room.currentTurn (fun x => { x with consecutiveSix := v })) i = some q ∧
          q.tokens = p.tokens := by
        intro v
        by_cases hct : g.room.currentTurn = i
        · subst hct
          refine ⟨{ p with consecutiveSix := v }, ?_, rfl⟩
          simp only [setPlayerAt]
          rw [updAt_lookup_eq, hp]
          rfl
        · refine ⟨p, ?_, rfl⟩
          simp only [setPlayerAt]
          rw [updAt_lookup_ne _ _ _ _ hct]
          exact hp
      split
      · split
        · obtain ⟨q, hq2, ht⟩ := key 0
          refine ⟨q, ?_, ht⟩
          show lookupIdx (nextTurn _).1.players i = _
          rw [nextTurn_players]
          exact hq2
        · obtain ⟨q, hq2, ht⟩ := key (cur.consecutiveSix + 1)
          refine ⟨q, ?_, ht⟩
          rw [finishRoll_players]
          exact hq2
      · obtain ⟨q, hq2, ht⟩ := key 0
        refine ⟨q, ?_, ht⟩
        rw [finishRoll_players]
        exact hq2
    · simp only [if_neg hpid]
      exact ⟨p, hp, rfl⟩

theorem move_frozen (g : Game) (pid tid : Int) (hinv : GameInv g)
    (i j : Nat) (p : Player) (t : Token)
    (hpi : lookupIdx g.room.players i = some p)
    (htj : lookupIdx p.tokens j = some t)
    (hhome : t.isHome = true) :
    ∃ q, lookupIdx (MoveToken g pid tid).2.1.room.players i = some q ∧
      lookupIdx q.tokens j = some t := by
  simp only [MoveToken]
  cases hq : lookupIdx g.room.players g.room.currentTurn with
  | none => exact ⟨p, hpi, htj⟩
  | some cur =>
    by_cases hpid : cur.pid = pid
    · simp only [if_pos hpid]
      by_cases hrange : tid < 0 ∨ (cur.tokens.length : Int) ≤ tid
      · simp only [if_pos hrange]
        exact ⟨p, hpi, htj⟩
      · simp only [if_neg hrange]
        by_cases hcan : canMoveToken g.board (lGet dummyToken cur.tokens tid.toNat)
            g.room.lastDice cur.color = true
        · simp only [hcan, if_pos]
          have hlt : tid.toNat < cur.tokens.length := by
            push_neg at hrange
            omega
          have hco := hinv.1 cur (lookupIdx_mem _ _ _ hq)
            (lGet dummyToken cur.tokens tid.toNat)
            (lGet_mem dummyToken cur.tokens tid.toNat hlt)
          rw [moveTokenCore_eq g cur pid tid.toNat _ g.room.lastDice hco.2 hinv.2.2]
          have key : ∃ q, lookupIdx (setPlayerAt g.room.players g.room.currentTurn
              (fun x => { x with tokens := updAt (fun _ =>
                (moveTokenToPosition g.board (lGet dummyToken cur.tokens tid.toNat)
                  (calculateNewPosition (lGet dummyToken cur.tokens tid.toNat)
                    g.room.lastDice cur.color) cur.color).1) x.tokens tid.toNat }))
              i = some q ∧ lookupIdx q.tokens j = some t := by
            by_cases hct : g.room.currentTurn = i
            · subst hct
              have hpc : p = cur := by
                rw [hpi] at hq
                exact Option.some.inj hq
              subst hpc
              refine ⟨{ p with tokens := updAt (fun _ =>
                (moveTokenToPosition g.board (lGet dummyToken p.tokens tid.toNat)
                  (calculateNewPosition (lGet dummyToken p.tokens tid.toNat)
                    g.room.lastDice p.color) p.color).1) p.tokens tid.toNat },
                ?_, ?_⟩
              · simp only [setPlayerAt]
                rw [updAt_lookup_eq, hpi]
                rfl
              · show lookupIdx (updAt _ p.tokens tid.toNat) j = some t
                by_cases hjt : tid.toNat = j
                · subst hjt
                  have ht2 : lGet dummyToken p.tokens tid.toNat = t := by
                    rw [lGet_eq_lookup, htj]
                    rfl
                  have := canMoveToken_notHome _ _ _ _ hcan
                  rw [ht2] at this
                  rw [this] at hhome
                  cases hhome
                · rw [updAt_lookup_ne _ _ _ _ hjt]
                  exact htj
            · refine ⟨p, ?_, htj⟩
              simp only [setPlayerAt]
              rw [updAt_lookup_ne _ _ _ _ hct]
              exact hpi
          obtain ⟨q, hql, hqt⟩ := key
          simp only [moveResult]
          split
          · exact ⟨q, hql, hqt⟩
          · split
            · refine ⟨q, ?_, hqt⟩
              show lookupIdx (nextTurn _).1.players i = _
              rw [nextTurn_players]
              exact hql
            · exact ⟨q, hql, hqt⟩
        · simp only [hcan]
          exact ⟨p, hpi, htj⟩
    · simp only [if_neg hpid]
      exact ⟨p, hpi, htj⟩

/-- C5: in every reachable state each token's position lies in
{-1} ∪ [0, 57], and a token with `is_home = true` is never moved by any
engine operation - the player slot keeps the very same token. -/
theorem claim_C5_positions_home (g : Game) (h : Reachable g) :
    (∀ p ∈ g.room.players, ∀ t ∈ p.tokens,
      t.position = -1 ∨ (0 ≤ t.position ∧ t.position ≤ 57)) ∧
    (∀ (a : GAction) (i j : Nat) (p : Player) (t : Token),
      lookupIdx g.room.players i = some p →
      lookupIdx p.tokens j = some t →
      t.isHome = true →
      ∃ q, lookupIdx (nextState g a).room.players i = some q ∧
        lookupIdx q.tokens j = some t) := by
  have hinv := GameInv_reachable g h
  constructor
  · intro p hp t ht
    exact (hinv.1 p hp t ht).1
  · intro a i j p t hpi htj hhome
    cases a with
    | astart d =>
      refine ⟨p, ?_, htj⟩
      show lookupIdx (Start g d).2.1.room.players i = some p
      rw [start_players]
      exact hpi
    | aroll pid d =>
      obtain ⟨q, hq2, ht2⟩ := roll_players_shape g pid d i p hpi
      refine ⟨q, hq2, ?_⟩
      rw [ht2]
      exact htj
    | amove pid tid => exact move_frozen g pid tid hinv i j p t hpi htj hhome

theorem claim_C5_witness :
    (mkToken 0 Color.red).position = -1 ∨
      (0 ≤ (mkToken 0 Color.red).position ∧ (mkToken 0 Color.red).position ≤ 57) :=
  (claim_C5_positions_home (initGame [newPlayer 1 .red, newPlayer 2 .blue] 4 1 false)
    (Reachable.init _ 4 1 false (by
      intro p hp
      rcases List.mem_cons.mp hp with rfl | hp
      · exact ⟨1, .red, rfl⟩
      rcases List.mem_cons.mp hp with rfl | hp
      · exact ⟨2, .blue, rfl⟩
      cases hp))).1
    (newPlayer 1 .red) (by decide) (mkToken 0 .red) (by decide)

/-! ## Claim C9 - Hard AI selection -/

theorem pickBest_spec (score : Token → Int) (acc : Token) (l : List Token) :
    score acc ≤ score (pickBest score acc l) ∧
    (∀ k u, lookupIdx l k = some u → score u ≤ score (pickBest score acc l)) ∧
    (pickBest score acc l = acc ∨
      ∃ i, lookupIdx l i = some (pickBest score acc l) ∧
        score acc < score (pickBest score acc l) ∧
        (∀ k u, k < i → lookupIdx l k = some u →
          score u < score (pickBest score acc l))) := by
  induction l generalizing acc with
  | nil =>
    refine ⟨le_refl _, ?_, Or.inl rfl⟩
    intro k u hk
    cases k <;> cases hk
  | cons t rest ih =>
    by_cases hlt : score acc < score t
    · have hre := ih t
      rw [pickBest, if_pos hlt]
      refine ⟨le_trans (le_of_lt hlt) hre.1, ?_, ?_⟩
      · intro k u hk
        cases k with
        | zero =>
          cases Option.some.inj hk
          exact hre.1
        | succ k2 => exact hre.2.1 k2 u hk
      · rcases hre.2.2 with h1 | ⟨i, hi, hgt, hfirst⟩
        · right
          refine ⟨0, ?_, ?_, ?_⟩
          · rw [h1]
            rfl
          · rw [h1]
            exact hlt
          · intro k u hk hku
            exact absurd hk (Nat.not_lt_zero k)
        · right
          refine ⟨i + 1, hi, lt_trans hlt hgt, ?_⟩
          intro k u hk hku
          cases k with
          | zero =>
            cases Option.some.inj hku
            exact hgt
          | succ k2 => exact hfirst k2 u (Nat.lt_of_succ_lt_succ hk) hku
    · have hre := ih acc
      rw [pickBest, if_neg hlt]
      refine ⟨hre.1, ?_, ?_⟩
      · intro k u hk
        cases k with
        | zero =>
          cases Option.some.inj hk
          exact le_trans (le_of_not_lt hlt) hre.1
        | succ k2 => exact hre.2.1 k2 u hk
      · rcases hre.2.2 with h1 | ⟨i, hi, hgt, hfirst⟩
        · exact Or.inl h1
        · right
          refine ⟨i + 1, hi, hgt, ?_⟩
          intro k u hk hku
          cases k with
          | zero =>
            cases Option.some.inj hku
            exact lt_of_le_of_lt (le_of_not_lt hlt) hgt
          | succ k2 => exact hfirst k2 u (Nat.lt_of_succ_lt_succ hk) hku

/-- C9 (amended): the Hard AI returns a null selection exactly when no
legal token exists, and otherwise the first legal token (in token order)
of maximal `evaluateMove` score; `evaluateMove` deviates from the claim's
formula in that the +300 safe-cell bonus also fires for every off-ring
destination (base or home stretch), the -400 danger penalty is skipped
for safe destinations, the -200 isolation test uses the token's current
position with absolute distances (counting home-stretch allies), and the
+600 blocking bonus triggers on any token beyond position 45, own tokens
included. -/
theorem claim_C9_hard_first_argmax (p : Player) (dv : Int) (b : Board) :
    (selectTokenHard p dv b = none ↔ getValidTokens p dv b = []) ∧
    (∀ t, selectTokenHard p dv b = some t →
      ∃ i, lookupIdx (getValidTokens p dv b) i = some t ∧
        (∀ k u, lookupIdx (getValidTokens p dv b) k = some u →
          evaluateMove u dv p b ≤ evaluateMove t dv p b) ∧
        (∀ k u, k < i → lookupIdx (getValidTokens p dv b) k = some u →
          evaluateMove u dv p b < evaluateMove t dv p b)) := by
  cases hv : getValidTokens p dv b with
  | nil =>
    constructor
    · simp [selectTokenHard, hv]
    · intro t ht
      rw [selectTokenHard, hv] at ht
      cases ht
  | cons t0 rest =>
    constructor
    · rw [selectTokenHard, hv]
      constructor
      · intro hh
        cases hh
      · intro hh
        cases hh
    · intro t ht
      rw [selectTokenHard, hv] at ht
      have hbest := Option.some.inj ht
      obtain ⟨hacc, hmax, hfst⟩ :=
        pickBest_spec (fun u => evaluateMove u dv p b) t0 rest
      rw [hbest] at hacc hmax hfst
      rcases hfst with h1 | ⟨i, hi, hgt, hfirst⟩
      · refine ⟨0, ?_, ?_, ?_⟩
        · rw [h1]
          rfl
        · intro k u hk
          cases k with
          | zero =>
            cases Option.some.inj hk
            rw [h1]
          | succ k2 => exact hmax k2 u hk
        · intro k u hk hku
          exact absurd hk (Nat.not_lt_zero k)
      · refine ⟨i + 1, hi, ?_, ?_⟩
        · intro k u hk
          cases k with
          | zero =>
            cases Option.some.inj hk
            exact le_of_lt hgt
          | succ k2 => exact hmax k2 u hk
        · intro k u hk hku
          cases k with
          | zero =>
            cases Option.some.inj hku
            exact hgt
          | succ k2 => exact hfirst k2 u (Nat.lt_of_succ_lt_succ hk) hku

/-- Ring distance between two ring cells (shorter way around the 52-cell
ring). -/
def ringDistance (a b : Int) : Int := min ((a - b) % 52) ((b - a) % 52)

/-- The Hard-AI scoring formula exactly as claim C9 words it: +300 only
for marked safe ring cells, isolation judged at the destination among
ring allies, the -400 penalty for an opponent within 6 ring cells behind
the destination with no safe-cell exemption, and +600 only for an
opposing token beyond position 45 within 6 ring cells ahead. -/
def claimHardScore (t : Token) (dv : Int) (p : Player) (b : Board) : Int :=
  let newPos := calculateNewPosition t dv p.color
  (if canCapture newPos p.color b then 1000 else 0) +
  (if t.position = -1 ∧ dv = 6 then 500 else 0) +
  (if 52 ≤ newPos then 800 else 0) +
  (if 0 ≤ newPos ∧ newPos < 52 ∧ safePositions.contains newPos then 300 else 0) +
  newPos * 10 +
  (if 0 ≤ newPos ∧ newPos < 52 ∧
      ¬ p.tokens.any (fun o => o.id ≠ t.id ∧ 0 ≤ o.position ∧ o.position < 52 ∧
        ringDistance newPos o.position ≤ 6) then -200 else 0) +
  (if 0 ≤ newPos ∧ newPos < 52 ∧
      (List.range 6).any (fun k =>
        match (lGet dummyCell b.cells
            ((newPos - (Int.ofNat k + 1) + 52) % 52).toNat).token with
        | some u => decide ¬(u.color = p.color)
        | none => false) then -400 else 0) +
  (if 0 ≤ newPos ∧ newPos < 52 ∧
      (List.range 6).any (fun k =>
        match (lGet dummyCell b.cells ((newPos + (Int.ofNat k + 1)) % 52).toNat).token with
        | some u => decide (¬(u.color = p.color) ∧ 45 < u.position)
        | none => false) then 600 else 0)

/-- C9 counterexample: with a 5, red's token 0 (cell 45, destination 52)
and token 1 (cell 39, destination 44 capturing blue) are both legal; the
claim's formula scores token 1 (1440) above token 0 (1320), yet
`selectTokenHard` returns token 0, whose code score gains an extra +300
from the off-ring destination being "safe". -/
theorem claim_C9_counterexample :
    selectTokenHard demoRed 5 demoBoard = some tokR0 ∧
    lookupIdx (getValidTokens demoRed 5 demoBoard) 1 = some tokR1 ∧
    claimHardScore tokR0 5 demoRed demoBoard <
      claimHardScore tokR1 5 demoRed demoBoard := by
  refine ⟨by decide, by decide, by decide⟩

theorem claim_C9_witness :
    ∃ i, lookupIdx (getValidTokens demoRed 5 demoBoard) i = some tokR0 ∧
      (∀ k u, lookupIdx (getValidTokens demoRed 5 demoBoard) k = some u →
        evaluateMove u 5 demoRed demoBoard ≤ evaluateMove tokR0 5 demoRed demoBoard) ∧
      (∀ k u, k < i → lookupIdx (getValidTokens demoRed 5 demoBoard) k = some u →
        evaluateMove u 5 demoRed demoBoard < evaluateMove tokR0 5 demoRed demoBoard) :=
  (claim_C9_hard_first_argmax demoRed 5 demoBoard).2 tokR0 (by decide)

/-! ## Witnesses for claims C2 and C3 -/

/-- A freshly created two-player engine state. -/
def gW : Game := initGame [newPlayer 1 .red, newPlayer 2 .blue] 4 1 false

theorem claim_C2_witness :
    rcGet (RollDice gW 1 0).2.1.rollCount 1 = rcGet gW.rollCount 1 + 1 ∧
    (∀ q, q ≠ (1 : Int) →
      rcGet (RollDice gW 1 0).2.1.rollCount q = rcGet gW.rollCount q) ∧
    ((rcGet gW.rollCount 1 + 1 = 1 ∨ (rcGet gW.rollCount 1 + 1) % 5 = 0) →
      (6 : Int) = 6) ∧
    (1 : Int) ≤ 6 ∧ (6 : Int) ≤ 6 :=
  (claim_C2_dice_rigging gW 1 0).2.1 6 true (by decide)

/-- A mid-game state: red (seat 0) has rolled two consecutive sixes and
has already rolled twice, so roll number 3 is not rigged. -/
def g3 : Game :=
  { room := { players := [{ newPlayer 1 .red with consecutiveSix := 2 },
                          newPlayer 2 .blue],
              maxPlayers := 4, hostId := 1, currentTurn := 0, lastDice := 6,
              state := .playing, isPrivate := false },
    board := newBoard, rollCount := [(1, 2), (2, 0)] }

theorem claim_C3_witness :
    ((RollDice g3 1 5).1 = some (6, false) ∧
     (RollDice g3 1 5).2.1.room.currentTurn =
       (g3.room.currentTurn + 1) % g3.room.players.length ∧
     (∃ p2, lookupIdx (RollDice g3 1 5).2.1.room.players g3.room.currentTurn =
        some p2 ∧ p2.consecutiveSix = 0 ∧
        p2.tokens = ({ newPlayer 1 .red with consecutiveSix := 2 } : Player).tokens) ∧
     (∃ x, (RollDice g3 1 5).2.2 =
       [GEvent.turnChanged x, GEvent.diceRolled 1 6 false])) ∧
    (∃ p2, lookupIdx (RollDice g3 1 0).2.1.room.players g3.room.currentTurn =
      some p2 ∧ p2.consecutiveSix = 0 ∧
      p2.tokens = ({ newPlayer 1 .red with consecutiveSix := 2 } : Player).tokens) :=
  ⟨claim_C3_triple_six.1 g3 1 5 { newPlayer 1 .red with consecutiveSix := 2 }
      (by decide) (by decide) (by decide) (by decide),
   claim_C3_triple_six.2 g3 1 0 { newPlayer 1 .red with consecutiveSix := 2 }
      (by decide) (by decide) (by decide)⟩
